import Mathlib

/-!
Verification of the AST-traversal static-analysis rules of the repository
(`oxlint` plugin rules: `no-nested-conditionals`, `no-inline-components`,
`no-top-level-let`, `no-nested-pure-functions`).

The JavaScript AST (ESTree) is modelled as an inductive type `Node`.  Real
ESTree nodes carry a `parent` back-reference; an inductive tree cannot, so
every place the source reads `node.parent` the embedding instead threads an
explicit ancestor chain `Anc` (nearest ancestor first, each ancestor paired
with the edge through which the node hangs off it).  Reference-identity checks
of the source such as `parent.alternate === node` become checks of that edge,
which is an exact translation because the host tree is a tree.

JavaScript `Set`s are modelled as lists consumed only through membership;
JavaScript array `push`/`pop` stacks are modelled as lists with the head as the
stack top.  `context.report` is modelled by appending a diagnostic record to a
diagnostics list, in call order.
-/

set_option maxHeartbeats 4000000
set_option maxRecDepth 100000

/-- ESTree node, restricted to the node kinds the four rules inspect.
Children appear in the same order as the corresponding ESTree fields. -/
inductive Node where
  | program (body : List Node)
  | identifier (name : String)
  | literal (strValue : Option String)
  | blockStatement (body : List Node)
  | expressionStatement (expression : Node)
  | ifStatement (test : Node) (consequent : Node) (alternate : Option Node)
  | conditionalExpression (test : Node) (consequent : Node) (alternate : Node)
  | switchStatement (discriminant : Node) (cases : List Node)
  | switchCase (test : Option Node) (consequent : List Node)
  | returnStatement (argument : Option Node)
  | variableDeclaration (kind : String) (declarations : List Node)
  | variableDeclarator (id : Node) (init : Option Node)
  | assignmentExpression (operator : String) (left : Node) (right : Node)
  | updateExpression (argument : Node)
  | callExpression (callee : Node) (arguments : List Node)
  | newExpression (callee : Node) (arguments : List Node)
  | memberExpression (object : Node) (property : Node) (computed : Bool)
  | functionDeclaration (id : Option Node) (params : List Node) (body : Node)
  | functionExpression (id : Option Node) (params : List Node) (body : Node)
  | arrowFunctionExpression (params : List Node) (body : Node)
  | objectExpression (properties : List Node)
  | arrayExpression (elements : List Node)
  | spreadElement (argument : Node)
  | property (key : Node) (value : Node)
  | restElement (argument : Node)
  | arrayPattern (elements : List Node)
  | objectPattern (properties : List Node)
  | assignmentPattern (left : Node) (right : Node)
  | binaryExpression (operator : String) (left : Node) (right : Node)
  | logicalExpression (operator : String) (left : Node) (right : Node)
  | sequenceExpression (expressions : List Node)
  | awaitExpression (argument : Node)
  | unaryExpression (operator : String) (argument : Node)
  | jsxElement (attributes : List Node) (children : List Node)
  | jsxFragment (children : List Node)
  | jsxAttribute (name : String) (value : Option Node)
  | exportNamedDeclaration (declaration : Option Node)
  | forStatement (init : Option Node) (test : Option Node) (update : Option Node) (body : Node)
  | tsAsExpression (expression : Node)
  | tsNonNullExpression (expression : Node)
  deriving Repr

/-- The `type` discriminant string of a node, as the source compares it. -/
def typeOf : Node → String
  | .program _ => "Program"
  | .identifier _ => "Identifier"
  | .literal _ => "Literal"
  | .blockStatement _ => "BlockStatement"
  | .expressionStatement _ => "ExpressionStatement"
  | .ifStatement .. => "IfStatement"
  | .conditionalExpression .. => "ConditionalExpression"
  | .switchStatement .. => "SwitchStatement"
  | .switchCase .. => "SwitchCase"
  | .returnStatement _ => "ReturnStatement"
  | .variableDeclaration .. => "VariableDeclaration"
  | .variableDeclarator .. => "VariableDeclarator"
  | .assignmentExpression .. => "AssignmentExpression"
  | .updateExpression _ => "UpdateExpression"
  | .callExpression .. => "CallExpression"
  | .newExpression .. => "NewExpression"
  | .memberExpression .. => "MemberExpression"
  | .functionDeclaration .. => "FunctionDeclaration"
  | .functionExpression .. => "FunctionExpression"
  | .arrowFunctionExpression .. => "ArrowFunctionExpression"
  | .objectExpression _ => "ObjectExpression"
  | .arrayExpression _ => "ArrayExpression"
  | .spreadElement _ => "SpreadElement"
  | .property .. => "Property"
  | .restElement _ => "RestElement"
  | .arrayPattern _ => "ArrayPattern"
  | .objectPattern _ => "ObjectPattern"
  | .assignmentPattern .. => "AssignmentPattern"
  | .binaryExpression .. => "BinaryExpression"
  | .logicalExpression .. => "LogicalExpression"
  | .sequenceExpression _ => "SequenceExpression"
  | .awaitExpression _ => "AwaitExpression"
  | .unaryExpression .. => "UnaryExpression"
  | .jsxElement .. => "JSXElement"
  | .jsxFragment _ => "JSXFragment"
  | .jsxAttribute .. => "JSXAttribute"
  | .exportNamedDeclaration _ => "ExportNamedDeclaration"
  | .forStatement .. => "ForStatement"
  | .tsAsExpression _ => "TSAsExpression"
  | .tsNonNullExpression _ => "TSNonNullExpression"


/- Per-constructor reduction lemmas for `typeOf`, so that rewriting never
unfolds `typeOf` applied to a symbolic node. -/
@[simp] theorem typeOf_program (b : List Node) :
    typeOf (.program b) = "Program" := rfl

@[simp] theorem typeOf_identifier (s : String) :
    typeOf (.identifier s) = "Identifier" := rfl

@[simp] theorem typeOf_literal (v : Option String) :
    typeOf (.literal v) = "Literal" := rfl

@[simp] theorem typeOf_blockStatement (b : List Node) :
    typeOf (.blockStatement b) = "BlockStatement" := rfl

@[simp] theorem typeOf_expressionStatement (e : Node) :
    typeOf (.expressionStatement e) = "ExpressionStatement" := rfl

@[simp] theorem typeOf_ifStatement (t c : Node) (a : Option Node) :
    typeOf (.ifStatement t c a) = "IfStatement" := rfl

@[simp] theorem typeOf_conditionalExpression (t c a : Node) :
    typeOf (.conditionalExpression t c a) = "ConditionalExpression" := rfl

@[simp] theorem typeOf_switchStatement (d : Node) (cs : List Node) :
    typeOf (.switchStatement d cs) = "SwitchStatement" := rfl

@[simp] theorem typeOf_switchCase (t : Option Node) (b : List Node) :
    typeOf (.switchCase t b) = "SwitchCase" := rfl

@[simp] theorem typeOf_returnStatement (a : Option Node) :
    typeOf (.returnStatement a) = "ReturnStatement" := rfl

@[simp] theorem typeOf_variableDeclaration (k : String) (ds : List Node) :
    typeOf (.variableDeclaration k ds) = "VariableDeclaration" := rfl

@[simp] theorem typeOf_variableDeclarator (i : Node) (v : Option Node) :
    typeOf (.variableDeclarator i v) = "VariableDeclarator" := rfl

@[simp] theorem typeOf_assignmentExpression (o : String) (l r : Node) :
    typeOf (.assignmentExpression o l r) = "AssignmentExpression" := rfl

@[simp] theorem typeOf_updateExpression (a : Node) :
    typeOf (.updateExpression a) = "UpdateExpression" := rfl

@[simp] theorem typeOf_callExpression (f : Node) (a : List Node) :
    typeOf (.callExpression f a) = "CallExpression" := rfl

@[simp] theorem typeOf_newExpression (f : Node) (a : List Node) :
    typeOf (.newExpression f a) = "NewExpression" := rfl

@[simp] theorem typeOf_memberExpression (o p : Node) (c : Bool) :
    typeOf (.memberExpression o p c) = "MemberExpression" := rfl

@[simp] theorem typeOf_functionDeclaration (i : Option Node) (ps : List Node) (b : Node) :
    typeOf (.functionDeclaration i ps b) = "FunctionDeclaration" := rfl

@[simp] theorem typeOf_functionExpression (i : Option Node) (ps : List Node) (b : Node) :
    typeOf (.functionExpression i ps b) = "FunctionExpression" := rfl

@[simp] theorem typeOf_arrowFunctionExpression (ps : List Node) (b : Node) :
    typeOf (.arrowFunctionExpression ps b) = "ArrowFunctionExpression" := rfl

@[simp] theorem typeOf_objectExpression (ps : List Node) :
    typeOf (.objectExpression ps) = "ObjectExpression" := rfl

@[simp] theorem typeOf_arrayExpression (es : List Node) :
    typeOf (.arrayExpression es) = "ArrayExpression" := rfl

@[simp] theorem typeOf_spreadElement (a : Node) :
    typeOf (.spreadElement a) = "SpreadElement" := rfl

@[simp] theorem typeOf_property (k v : Node) :
    typeOf (.property k v) = "Property" := rfl

@[simp] theorem typeOf_restElement (a : Node) :
    typeOf (.restElement a) = "RestElement" := rfl

@[simp] theorem typeOf_arrayPattern (es : List Node) :
    typeOf (.arrayPattern es) = "ArrayPattern" := rfl

@[simp] theorem typeOf_objectPattern (ps : List Node) :
    typeOf (.objectPattern ps) = "ObjectPattern" := rfl

@[simp] theorem typeOf_assignmentPattern (l r : Node) :
    typeOf (.assignmentPattern l r) = "AssignmentPattern" := rfl

@[simp] theorem typeOf_binaryExpression (o : String) (l r : Node) :
    typeOf (.binaryExpression o l r) = "BinaryExpression" := rfl

@[simp] theorem typeOf_logicalExpression (o : String) (l r : Node) :
    typeOf (.logicalExpression o l r) = "LogicalExpression" := rfl

@[simp] theorem typeOf_sequenceExpression (es : List Node) :
    typeOf (.sequenceExpression es) = "SequenceExpression" := rfl

@[simp] theorem typeOf_awaitExpression (a : Node) :
    typeOf (.awaitExpression a) = "AwaitExpression" := rfl

@[simp] theorem typeOf_unaryExpression (o : String) (a : Node) :
    typeOf (.unaryExpression o a) = "UnaryExpression" := rfl

@[simp] theorem typeOf_jsxElement (a ch : List Node) :
    typeOf (.jsxElement a ch) = "JSXElement" := rfl

@[simp] theorem typeOf_jsxFragment (ch : List Node) :
    typeOf (.jsxFragment ch) = "JSXFragment" := rfl

@[simp] theorem typeOf_jsxAttribute (n : String) (v : Option Node) :
    typeOf (.jsxAttribute n v) = "JSXAttribute" := rfl

@[simp] theorem typeOf_exportNamedDeclaration (d : Option Node) :
    typeOf (.exportNamedDeclaration d) = "ExportNamedDeclaration" := rfl

@[simp] theorem typeOf_forStatement (i t u : Option Node) (b : Node) :
    typeOf (.forStatement i t u b) = "ForStatement" := rfl

@[simp] theorem typeOf_tsAsExpression (e : Node) :
    typeOf (.tsAsExpression e) = "TSAsExpression" := rfl

@[simp] theorem typeOf_tsNonNullExpression (e : Node) :
    typeOf (.tsNonNullExpression e) = "TSNonNullExpression" := rfl

/-- Which ESTree field of the parent a child sits in.  Stands in for the
reference-identity checks (`parent.alternate === node` and the like) that the
source performs through parent pointers. -/
inductive Edge where
  | body | test | consequent | alternate | discriminant | cases
  | argument | arguments | declarations | id | init | left | right
  | callee | object | propertyE | key | value | params | elements
  | properties | expression | expressions | attributes | children
  | declaration | update
  deriving Repr, DecidableEq

/-- Child list of an optional field. -/
def optChild (e : Edge) : Option Node → List (Edge × Node)
  | none => []
  | some c => [(e, c)]

/-- Child enumeration, mirroring `Object.keys` enumeration in the source with
the `parent` back-edge skipped and null/absent children treated as no-ops.
List-valued fields are enumerated element-wise, in field order. -/
def childrenE : Node → List (Edge × Node)
  | .program body => body.map ((Edge.body, ·))
  | .identifier _ => []
  | .literal _ => []
  | .blockStatement body => body.map ((Edge.body, ·))
  | .expressionStatement e => [(Edge.expression, e)]
  | .ifStatement t c a => (Edge.test, t) :: (Edge.consequent, c) :: optChild Edge.alternate a
  | .conditionalExpression t c a => [(Edge.test, t), (Edge.consequent, c), (Edge.alternate, a)]
  | .switchStatement d cs => (Edge.discriminant, d) :: cs.map ((Edge.cases, ·))
  | .switchCase t body => optChild Edge.test t ++ body.map ((Edge.consequent, ·))
  | .returnStatement a => optChild Edge.argument a
  | .variableDeclaration _ ds => ds.map ((Edge.declarations, ·))
  | .variableDeclarator i init => (Edge.id, i) :: optChild Edge.init init
  | .assignmentExpression _ l r => [(Edge.left, l), (Edge.right, r)]
  | .updateExpression a => [(Edge.argument, a)]
  | .callExpression f args => (Edge.callee, f) :: args.map ((Edge.arguments, ·))
  | .newExpression f args => (Edge.callee, f) :: args.map ((Edge.arguments, ·))
  | .memberExpression o p _ => [(Edge.object, o), (Edge.propertyE, p)]
  | .functionDeclaration i ps b =>
      optChild Edge.id i ++ ps.map ((Edge.params, ·)) ++ [(Edge.body, b)]
  | .functionExpression i ps b =>
      optChild Edge.id i ++ ps.map ((Edge.params, ·)) ++ [(Edge.body, b)]
  | .arrowFunctionExpression ps b => ps.map ((Edge.params, ·)) ++ [(Edge.body, b)]
  | .objectExpression ps => ps.map ((Edge.properties, ·))
  | .arrayExpression es => es.map ((Edge.elements, ·))
  | .spreadElement a => [(Edge.argument, a)]
  | .property k v => [(Edge.key, k), (Edge.value, v)]
  | .restElement a => [(Edge.argument, a)]
  | .arrayPattern es => es.map ((Edge.elements, ·))
  | .objectPattern ps => ps.map ((Edge.properties, ·))
  | .assignmentPattern l r => [(Edge.left, l), (Edge.right, r)]
  | .binaryExpression _ l r => [(Edge.left, l), (Edge.right, r)]
  | .logicalExpression _ l r => [(Edge.left, l), (Edge.right, r)]
  | .sequenceExpression es => es.map ((Edge.expressions, ·))
  | .awaitExpression a => [(Edge.argument, a)]
  | .unaryExpression _ a => [(Edge.argument, a)]
  | .jsxElement attrs kids => attrs.map ((Edge.attributes, ·)) ++ kids.map ((Edge.children, ·))
  | .jsxFragment kids => kids.map ((Edge.children, ·))
  | .jsxAttribute _ v => optChild Edge.value v
  | .exportNamedDeclaration d => optChild Edge.declaration d
  | .forStatement i t u b =>
      optChild Edge.init i ++ optChild Edge.test t ++ optChild Edge.update u ++ [(Edge.body, b)]
  | .tsAsExpression e => [(Edge.expression, e)]
  | .tsNonNullExpression e => [(Edge.expression, e)]

mutual
/-- Structural size used as the termination measure of tree searches. -/
def Node.size : Node → Nat
  | .program body => 1 + Node.sizeList body
  | .identifier _ => 1
  | .literal _ => 1
  | .blockStatement body => 1 + Node.sizeList body
  | .expressionStatement e => 1 + e.size
  | .ifStatement t c a => 1 + t.size + c.size + Node.sizeOpt a
  | .conditionalExpression t c a => 1 + t.size + c.size + a.size
  | .switchStatement d cs => 1 + d.size + Node.sizeList cs
  | .switchCase t body => 1 + Node.sizeOpt t + Node.sizeList body
  | .returnStatement a => 1 + Node.sizeOpt a
  | .variableDeclaration _ ds => 1 + Node.sizeList ds
  | .variableDeclarator i init => 1 + i.size + Node.sizeOpt init
  | .assignmentExpression _ l r => 1 + l.size + r.size
  | .updateExpression a => 1 + a.size
  | .callExpression f args => 1 + f.size + Node.sizeList args
  | .newExpression f args => 1 + f.size + Node.sizeList args
  | .memberExpression o p _ => 1 + o.size + p.size
  | .functionDeclaration i ps b => 1 + Node.sizeOpt i + Node.sizeList ps + b.size
  | .functionExpression i ps b => 1 + Node.sizeOpt i + Node.sizeList ps + b.size
  | .arrowFunctionExpression ps b => 1 + Node.sizeList ps + b.size
  | .objectExpression ps => 1 + Node.sizeList ps
  | .arrayExpression es => 1 + Node.sizeList es
  | .spreadElement a => 1 + a.size
  | .property k v => 1 + k.size + v.size
  | .restElement a => 1 + a.size
  | .arrayPattern es => 1 + Node.sizeList es
  | .objectPattern ps => 1 + Node.sizeList ps
  | .assignmentPattern l r => 1 + l.size + r.size
  | .binaryExpression _ l r => 1 + l.size + r.size
  | .logicalExpression _ l r => 1 + l.size + r.size
  | .sequenceExpression es => 1 + Node.sizeList es
  | .awaitExpression a => 1 + a.size
  | .unaryExpression _ a => 1 + a.size
  | .jsxElement attrs kids => 1 + Node.sizeList attrs + Node.sizeList kids
  | .jsxFragment kids => 1 + Node.sizeList kids
  | .jsxAttribute _ v => 1 + Node.sizeOpt v
  | .exportNamedDeclaration d => 1 + Node.sizeOpt d
  | .forStatement i t u b => 1 + Node.sizeOpt i + Node.sizeOpt t + Node.sizeOpt u + b.size
  | .tsAsExpression e => 1 + e.size
  | .tsNonNullExpression e => 1 + e.size

def Node.sizeList : List Node → Nat
  | [] => 0
  | n :: rest => n.size + Node.sizeList rest

def Node.sizeOpt : Option Node → Nat
  | none => 0
  | some n => n.size
end

/-- Total size of a child-enumeration fragment. -/
def sizePairs : List (Edge × Node) → Nat
  | [] => 0
  | p :: rest => p.2.size + sizePairs rest

theorem Node.size_pos (n : Node) : 0 < n.size := by
  cases n <;> simp [Node.size] <;> omega

theorem sizePairs_map (e : Edge) (l : List Node) :
    sizePairs (l.map ((e, ·))) = Node.sizeList l := by
  induction l with
  | nil => rfl
  | cons a rest ih => simp [sizePairs, Node.sizeList, ih]

theorem sizePairs_append (a b : List (Edge × Node)) :
    sizePairs (a ++ b) = sizePairs a + sizePairs b := by
  induction a with
  | nil => simp [sizePairs]
  | cons p rest ih => simp [sizePairs, ih]; omega

theorem sizePairs_optChild (e : Edge) (o : Option Node) :
    sizePairs (optChild e o) = Node.sizeOpt o := by
  cases o <;> simp [optChild, sizePairs, Node.sizeOpt]

theorem sizePairs_childrenE_lt (n : Node) : sizePairs (childrenE n) < n.size := by
  cases n <;>
    simp [childrenE, Node.size, sizePairs, sizePairs_map, sizePairs_append,
      sizePairs_optChild] <;>
    omega

/-- Ancestor chain of a node: nearest ancestor first, each paired with the
edge through which the chain descends towards the node.  Substitute for the
`parent` back-references of the host tree. -/
abbrev Anc := List (Node × Edge)

/-- One traversal callback invocation of the host linter: an enter event
(`isExit = false`) or an exit event (`isExit = true`) for a node. -/
structure TEvent where
  isExit : Bool
  node : Node
  anc : Anc
  deriving Repr

mutual
/-- The depth-first traversal stream the host linter drives each rule with:
the enter event of a node strictly precedes all events of its descendants,
and its exit event strictly follows them (pre-order enter, post-order exit). -/
def traverseN (n : Node) (anc : Anc) : List TEvent :=
  ⟨false, n, anc⟩ :: (traverseListN (childrenE n) n anc ++ [⟨true, n, anc⟩])
termination_by 2 * n.size
decreasing_by
  have := sizePairs_childrenE_lt n; omega

def traverseListN (ps : List (Edge × Node)) (parent : Node) (anc : Anc) : List TEvent :=
  match ps with
  | [] => []
  | (e, c) :: rest => traverseN c ((parent, e) :: anc) ++ traverseListN rest parent anc
termination_by 2 * sizePairs ps + 1
decreasing_by
  · simp [sizePairs]; have := Node.size_pos c; omega
  · simp [sizePairs]; have := Node.size_pos c; omega
end

/-- Work item of the iterative traversal: visit a subtree, or emit a pending
exit event. -/
inductive WItem where
  | visit (n : Node) (anc : Anc)
  | emit (ev : TEvent)

def measureW : List WItem → Nat
  | [] => 0
  | .visit n _ :: rest => 2 * n.size + measureW rest
  | .emit _ :: rest => 1 + measureW rest

/-- Iterative, fuel-bounded form of the traversal used for computation; with
fuel at least `measureW` of the work list it produces exactly the event
stream of `traverseN` (`traverseLoop_eq_eventsW`). -/
def traverseLoop : Nat → List WItem → List TEvent
  | 0, _ => []
  | _ + 1, [] => []
  | fuel + 1, .emit ev :: rest => ev :: traverseLoop fuel rest
  | fuel + 1, .visit n anc :: rest =>
      ⟨false, n, anc⟩ ::
        traverseLoop fuel
          ((childrenE n).map (fun p => WItem.visit p.2 ((n, p.1) :: anc)) ++
            (WItem.emit ⟨true, n, anc⟩ :: rest))

/-- The event stream denoted by a work list. -/
def eventsW : List WItem → List TEvent
  | [] => []
  | .visit n anc :: rest => traverseN n anc ++ eventsW rest
  | .emit ev :: rest => ev :: eventsW rest

theorem eventsW_append (a b : List WItem) : eventsW (a ++ b) = eventsW a ++ eventsW b := by
  induction a with
  | nil => simp [eventsW]
  | cons it rest ih => cases it <;> simp [eventsW, ih]

theorem eventsW_visitChildren (ps : List (Edge × Node)) (parent : Node) (anc : Anc) :
    eventsW (ps.map (fun p => WItem.visit p.2 ((parent, p.1) :: anc))) =
      traverseListN ps parent anc := by
  induction ps with
  | nil => simp [eventsW, traverseListN]
  | cons p rest ih =>
      obtain ⟨e, c⟩ := p
      simp [eventsW, traverseListN, ih]

theorem measureW_append (a b : List WItem) :
    measureW (a ++ b) = measureW a + measureW b := by
  induction a with
  | nil => simp [measureW]
  | cons it rest ih => cases it <;> simp [measureW, ih] <;> omega

theorem measureW_visitChildren (ps : List (Edge × Node)) (parent : Node) (anc : Anc) :
    measureW (ps.map (fun p => WItem.visit p.2 ((parent, p.1) :: anc))) =
      2 * sizePairs ps := by
  induction ps with
  | nil => simp [measureW, sizePairs]
  | cons p rest ih =>
      obtain ⟨e, c⟩ := p
      simp [measureW, sizePairs, ih]
      omega

theorem traverseLoop_eq_eventsW :
    ∀ (fuel : Nat) (work : List WItem), measureW work ≤ fuel →
      traverseLoop fuel work = eventsW work := by
  intro fuel
  induction fuel with
  | zero =>
      intro work h
      cases work with
      | nil => simp [traverseLoop, eventsW]
      | cons it rest =>
          exfalso
          cases it with
          | visit n anc => simp [measureW] at h; have := Node.size_pos n; omega
          | emit ev => simp [measureW] at h
  | succ fuel ih =>
      intro work h
      cases work with
      | nil => simp [traverseLoop, eventsW]
      | cons it rest =>
          cases it with
          | emit ev =>
              simp [traverseLoop, eventsW]
              exact ih rest (by simp [measureW] at h; omega)
          | visit n anc =>
              have hlt := sizePairs_childrenE_lt n
              have hm : measureW
                  ((childrenE n).map (fun p => WItem.visit p.2 ((n, p.1) :: anc)) ++
                    (WItem.emit ⟨true, n, anc⟩ :: rest)) ≤ fuel := by
                rw [measureW_append, measureW_visitChildren]
                simp [measureW] at h ⊢
                omega
              simp [traverseLoop, eventsW, ih _ hm, eventsW_append,
                eventsW_visitChildren, traverseN.eq_def, eventsW]

/-- A rule is a fold of its callback dispatcher over the traversal stream. -/
def runRule {σ : Type} (step : TEvent → σ → σ) (root : Node) (s : σ) : σ :=
  (traverseLoop (2 * root.size) [WItem.visit root []]).foldl (fun s ev => step ev s) s

/-- The computed run folds over exactly the `traverseN` event stream. -/
theorem runRule_eq {σ : Type} (step : TEvent → σ → σ) (root : Node) (s : σ) :
    runRule step root s = (traverseN root []).foldl (fun s ev => step ev s) s := by
  unfold runRule
  rw [traverseLoop_eq_eventsW]
  · simp [eventsW]
  · simp [measureW]

/-- `FUNCTION_NODE_TYPES.has(node.type)` / `isFunctionLike` of the source
(identical in all three rule files). -/
def isFunctionLikeB (n : Node) : Bool :=
  typeOf n == "FunctionDeclaration" || typeOf n == "FunctionExpression" ||
    typeOf n == "ArrowFunctionExpression"

/-- An entry of the explicit work-list stack used by the bounded subtree
searches: the node, its parent and incoming edge (`none` only when the search
root is the whole tree root), and whether the entry is the search root (the
source compares `current !== root` by reference; descendants are pushed as
fresh entries, so a flag is the exact translation). -/
abbrev SEntry := Node × Option (Node × Edge) × Bool

def sizeEntries : List SEntry → Nat
  | [] => 0
  | (n, _, _) :: rest => n.size + sizeEntries rest

theorem sizeEntries_append (a b : List SEntry) :
    sizeEntries (a ++ b) = sizeEntries a + sizeEntries b := by
  induction a with
  | nil => simp [sizeEntries]
  | cons q qs ih =>
      obtain ⟨qn, qrest⟩ := q
      simp [sizeEntries, ih]
      omega

theorem sizeEntries_reverse (a : List SEntry) :
    sizeEntries a.reverse = sizeEntries a := by
  induction a with
  | nil => rfl
  | cons q qs ih =>
      obtain ⟨qn, qrest⟩ := q
      simp [List.reverse_cons, sizeEntries_append, sizeEntries, ih]
      omega

theorem sizeEntries_mapChildren (n : Node) (l : List (Edge × Node)) :
    sizeEntries (l.map (fun p => (p.2, some (n, p.1), false))) = sizePairs l := by
  induction l with
  | nil => rfl
  | cons p ps ih => simp [sizeEntries, sizePairs, ih]

/-- The shared work-list loop of `expressionContainsJsx` (no-inline-components),
`containsJSX`, `containsHooks` and `checkNodeForScopeAccess`
(no-nested-pure-functions): pop an entry; if the predicate holds, stop with
`true`; otherwise, unless the entry is a non-root function-like node, push its
children (the source pushes in field order onto an array stack and pops from
the end, hence the reversed prepend). -/
def searchLoop (pred : Node → Option (Node × Edge) → Bool) : Nat → List SEntry → Bool
  | 0, _ => false
  | _ + 1, [] => false
  | fuel + 1, (n, pinfo, isRoot) :: rest =>
      if pred n pinfo then true
      else if isFunctionLikeB n && !isRoot then searchLoop pred fuel rest
      else
        searchLoop pred fuel
          (((childrenE n).map (fun p => (p.2, some (n, p.1), false))).reverse ++ rest)

/-- Entry point of the work-list search: the fuel `sizeEntries` bounds the
iteration count (every iteration strictly shrinks the total stack size), so
the loop always runs to completion of its stack. -/
def runSearch (pred : Node → Option (Node × Edge) → Bool) (stack : List SEntry) : Bool :=
  searchLoop pred (sizeEntries stack) stack

/-- Declarative characterisation of the bounded subtree search: a hit is
either the entry node itself satisfying the predicate, or a hit strictly below
reachable without passing through a function-like node — a function-like
descendant is itself still checked (`here`) but never descended into
(the side condition of `child`); the root is exempt from the boundary. -/
inductive Hit (pred : Node → Option (Node × Edge) → Bool) :
    Node → Option (Node × Edge) → Bool → Prop
  | here {n : Node} {pinfo : Option (Node × Edge)} {isRoot : Bool}
      (h : pred n pinfo = true) : Hit pred n pinfo isRoot
  | child {n : Node} {pinfo : Option (Node × Edge)} {isRoot : Bool}
      {e : Edge} {c : Node}
      (hbdry : isRoot = true ∨ isFunctionLikeB n = false)
      (hmem : (e, c) ∈ childrenE n)
      (hc : Hit pred c (some (n, e)) false) : Hit pred n pinfo isRoot

theorem searchLoop_iff_hit (pred : Node → Option (Node × Edge) → Bool) :
    ∀ (fuel : Nat) (stack : List SEntry), sizeEntries stack ≤ fuel →
      (searchLoop pred fuel stack = true ↔
        ∃ ent ∈ stack, Hit pred ent.1 ent.2.1 ent.2.2) := by
  intro fuel
  induction fuel with
  | zero =>
      intro stack h
      cases stack with
      | nil => simp [searchLoop]
      | cons ent rest =>
          obtain ⟨n, pinfo, isRoot⟩ := ent
          exfalso
          simp [sizeEntries] at h
          have := Node.size_pos n
          omega
  | succ fuel ih =>
      intro stack h
      cases stack with
      | nil => simp [searchLoop]
      | cons ent rest =>
          obtain ⟨n, pinfo, isRoot⟩ := ent
          simp only [sizeEntries] at h
          have hn := Node.size_pos n
          by_cases hpred : pred n pinfo = true
          · rw [searchLoop, if_pos hpred]
            exact ⟨fun _ => ⟨(n, pinfo, isRoot), by simp, Hit.here hpred⟩, fun _ => rfl⟩
          · by_cases hfn : (isFunctionLikeB n && !isRoot) = true
            · rw [searchLoop, if_neg hpred, if_pos hfn, ih rest (by omega)]
              have hfn2 : isFunctionLikeB n = true ∧ isRoot = false := by
                simpa [Bool.and_eq_true] using hfn
              constructor
              · rintro ⟨ent, hmem, hhit⟩
                exact ⟨ent, by simp [hmem], hhit⟩
              · rintro ⟨ent, hmem, hhit⟩
                rcases List.mem_cons.mp hmem with rfl | hmem2
                · exfalso
                  cases hhit with
                  | here hp => exact hpred hp
                  | child hbdry _ _ =>
                      rcases hbdry with hroot | hnf
                      · rw [hfn2.2] at hroot; exact Bool.false_ne_true hroot
                      · rw [hfn2.1] at hnf; exact absurd hnf (by simp)
                · exact ⟨ent, hmem2, hhit⟩
            · have hrec : sizeEntries
                  (((childrenE n).map (fun p => (p.2, some (n, p.1), false))).reverse ++ rest) ≤
                    fuel := by
                rw [sizeEntries_append, sizeEntries_reverse, sizeEntries_mapChildren]
                have := sizePairs_childrenE_lt n
                omega
              rw [searchLoop, if_neg hpred, if_neg hfn, ih _ hrec]
              have hfn2 : isFunctionLikeB n = true → isRoot = true := by
                intro hf
                by_contra hr
                exact hfn (by simp [hf, Bool.not_eq_true _ |>.mp hr])
              constructor
              · rintro ⟨ent, hmem, hhit⟩
                rcases List.mem_append.mp hmem with hin | hin
                · rcases List.mem_map.mp (List.mem_reverse.mp hin) with ⟨⟨e, c⟩, hec, hrw⟩
                  refine ⟨(n, pinfo, isRoot), by simp, Hit.child ?_ hec ?_⟩
                  · by_cases hr : isRoot = true
                    · exact Or.inl hr
                    · refine Or.inr ?_
                      by_contra hf
                      exact hr (hfn2 (Bool.not_eq_false _ |>.mp hf))
                  · rw [← hrw] at hhit
                    exact hhit
                · exact ⟨ent, by simp [hin], hhit⟩
              · rintro ⟨ent, hmem, hhit⟩
                rcases List.mem_cons.mp hmem with rfl | hmem2
                · cases hhit with
                  | here hp => exact absurd hp hpred
                  | child hbdry hmemc hc =>
                      rename_i e c
                      refine ⟨(c, some (n, e), false), ?_, hc⟩
                      apply List.mem_append.mpr
                      exact Or.inl
                        (List.mem_reverse.mpr (List.mem_map.mpr ⟨(e, c), hmemc, rfl⟩))
                · exact ⟨ent, by simp [hmem2], hhit⟩

/-- The entry-point search over one root entry is the `Hit` characterisation. -/
theorem runSearch_iff_hit (pred : Node → Option (Node × Edge) → Bool)
    (n : Node) (pinfo : Option (Node × Edge)) :
    runSearch pred [(n, pinfo, true)] = true ↔ Hit pred n pinfo true := by
  rw [runSearch, searchLoop_iff_hit pred _ _ (Nat.le_refl _)]
  constructor
  · rintro ⟨ent, hmem, hhit⟩
    rcases List.mem_singleton.mp hmem with rfl
    exact hhit
  · intro hhit
    exact ⟨(n, pinfo, true), by simp, hhit⟩

/-- Single-quote character used inside source message strings. -/
def sQuote : String := String.singleton (Char.ofNat 39)

/-- `getEnclosingFunction` (no-inline-components): walk the parent chain to
the nearest function-like ancestor; the result is returned together with that
ancestor's own remaining parent chain (in the host tree the parent pointers
travel with the node). -/
def getEnclosingFunctionAux : Anc → Option (Node × Anc)
  | [] => none
  | (p, _) :: rest => if isFunctionLikeB p then some (p, rest) else getEnclosingFunctionAux rest

def getEnclosingFunction (anc : Anc) : Option Node :=
  (getEnclosingFunctionAux anc).map (·.1)

/-- `isFunctionUsedAsJsxProp`: walk the parent chain; a `JSXAttribute` before
any function-like ancestor means the function is used as a JSX prop. -/
def isFunctionUsedAsJsxProp : Anc → Bool
  | [] => false
  | (p, _) :: rest =>
      if typeOf p == "JSXAttribute" then true
      else if isFunctionLikeB p then false
      else isFunctionUsedAsJsxProp rest

/-- `isFunctionImmediatelyInvoked`: the parent is a `CallExpression` and the
function is its callee (`parent.callee === node`). -/
def isFunctionImmediatelyInvoked : Anc → Bool
  | (p, e) :: _ => typeOf p == "CallExpression" && e == Edge.callee
  | [] => false

/-- `getFunctionName` (no-inline-components): explicit id, else the name is
resolved from the owning declarator / assignment / object property, else from
the declarator or assignment owning an enclosing call (callback-wrapped
definitions); `""` if undeterminable.  (The `MethodDefinition` branch of the
source concerns a node kind outside the modelled fragment.) -/
def getFunctionName (n : Node) (anc : Anc) : String :=
  match n, anc with
  | .functionDeclaration (some (.identifier nm)) _ _, _ => nm
  | .functionExpression (some (.identifier nm)) _ _, _ => nm
  | _, (p, _) :: rest =>
      match p, rest with
      | .variableDeclarator (.identifier nm) _, _ => nm
      | .variableDeclarator _ _, _ => ""
      | .assignmentExpression _ (.identifier nm) _, _ => nm
      | .assignmentExpression _ _ _, _ => ""
      | .property (.identifier nm) _, _ => nm
      | .property _ _, _ => ""
      | .callExpression _ _, (.variableDeclarator (.identifier nm) _, _) :: _ => nm
      | .callExpression _ _, (.variableDeclarator _ _, _) :: _ => ""
      | .callExpression _ _, (.assignmentExpression _ (.identifier nm) _, _) :: _ => nm
      | .callExpression _ _, (.assignmentExpression _ _ _, _) :: _ => ""
      | _, _ => ""
  | _, [] => ""

/-- `JSX_NODE_TYPES.has(node.type)`. -/
def isJsxNodeType (n : Node) : Bool :=
  typeOf n == "JSXElement" || typeOf n == "JSXFragment"

/-- `expressionContainsJsx` (no-inline-components): work-list search of the
subtree for a JSX element/fragment, not descending into non-root functions. -/
def expressionContainsJsx (root : Node) : Bool :=
  runSearch (fun n _ => isJsxNodeType n) [(root, none, true)]

/-- `expressionProducesJsx` (no-inline-components), fuel-bounded form (every
recursive call descends to a strict subexpression, so fuel `root.size`
suffices): an expression produces a JSX value if its subtree contains JSX, or
it is an identifier recorded in the known-JSX binding set, or recursively
through conditional/logical branches, the last expression of a sequence,
array elements and spreads, await/unary/update wrappers, TS casts, and the
callee / object of call and member chains. -/
def expressionProducesJsxF (bindingNames : List String) : Nat → Node → Bool
  | 0, _ => false
  | fuel + 1, root =>
    if expressionContainsJsx root then true
    else
      match root with
      | .identifier nm => bindingNames.contains nm
      | .conditionalExpression _ c a =>
          expressionProducesJsxF bindingNames fuel c || expressionProducesJsxF bindingNames fuel a
      | .logicalExpression _ l r =>
          expressionProducesJsxF bindingNames fuel l || expressionProducesJsxF bindingNames fuel r
      | .sequenceExpression es =>
          match es.getLast? with
          | some last => expressionProducesJsxF bindingNames fuel last
          | none => false
      | .arrayExpression els =>
          els.any (fun el =>
            match el with
            | .spreadElement a => expressionProducesJsxF bindingNames fuel a
            | _ => expressionProducesJsxF bindingNames fuel el)
      | .awaitExpression a => expressionProducesJsxF bindingNames fuel a
      | .unaryExpression _ a => expressionProducesJsxF bindingNames fuel a
      | .updateExpression a => expressionProducesJsxF bindingNames fuel a
      | .tsAsExpression e => expressionProducesJsxF bindingNames fuel e
      | .tsNonNullExpression e => expressionProducesJsxF bindingNames fuel e
      | .callExpression f _ => expressionProducesJsxF bindingNames fuel f
      | .memberExpression o _ _ => expressionProducesJsxF bindingNames fuel o
      | _ => false

def expressionProducesJsx (root : Node) (bindingNames : List String) : Bool :=
  expressionProducesJsxF bindingNames root.size root

/-- `collectBindingNames` (no-inline-components) and `collectPatternNames`
(no-nested-pure-functions) are the same recursion over binding patterns:
plain identifiers, array patterns (with rest elements), object patterns
(`Property` values and rest elements), default-value patterns, rest elements.
JavaScript `Set.add` / array push are both modelled by appending; only
membership and enumeration order are consumed.  Fuel-bounded form, with every
recursive call on a strict subpattern, so fuel `pattern.size` suffices. -/
def collectPatternNamesF : Nat → Node → List String → List String
  | 0, _, names => names
  | fuel + 1, pattern, names =>
      match pattern with
      | .identifier nm => names ++ [nm]
      | .arrayPattern els =>
          els.foldl
            (fun acc el =>
              match el with
              | .restElement a => collectPatternNamesF fuel a acc
              | _ => collectPatternNamesF fuel el acc)
            names
      | .objectPattern props =>
          props.foldl
            (fun acc p =>
              match p with
              | .property _ v => collectPatternNamesF fuel v acc
              | .restElement a => collectPatternNamesF fuel a acc
              | _ => acc)
            names
      | .assignmentPattern l _ => collectPatternNamesF fuel l names
      | .restElement a => collectPatternNamesF fuel a names
      | _ => names

def collectPatternNames (pattern : Node) (names : List String) : List String :=
  collectPatternNamesF pattern.size pattern names

def collectBindingNames (pattern : Node) (names : List String) : List String :=
  collectPatternNames pattern names

/-- A reported diagnostic: the offending node and the message text. -/
structure Diag where
  node : Node
  message : String
  deriving Repr

/-! ### Rule `no-nested-conditionals` (src/src/oxlint-plugins/no-nested-conditionals.js) -/

def DEFAULT_MAX_DEPTH : Nat := 2

/-- `isStandaloneBlock`: a block is a separate scope when its parent is the
program or another block; blocks used as conditional/loop bodies do not reset
nesting depth. -/
def isStandaloneBlock (n : Node) (anc : Anc) : Bool :=
  if typeOf n != "BlockStatement" then false
  else
    match anc with
    | [] => false
    | (p, _) :: _ => typeOf p == "Program" || typeOf p == "BlockStatement"

/-- `isElseIf`: an `IfStatement` that is the `alternate` of an enclosing
`IfStatement` (`parent.alternate === node`). -/
def isElseIf (n : Node) (anc : Anc) : Bool :=
  if typeOf n != "IfStatement" then false
  else
    match anc with
    | [] => false
    | (p, e) :: _ => typeOf p == "IfStatement" && e == Edge.alternate

/-- One scope frame of the rule: current nesting depth and the per-construct
increments recorded for reversal on exit (head = most recent). -/
structure NCScope where
  depth : Nat
  increments : List Nat
  deriving Repr

structure NCState where
  scopeStack : List NCScope
  diags : List Diag
  deriving Repr

def ncEnterScope (s : NCState) : NCState :=
  { s with scopeStack := ⟨0, []⟩ :: s.scopeStack }

/-- `exitScope` pops; popping an empty stack is a no-op (JS `Array.pop` on an
empty array). -/
def ncExitScope (s : NCState) : NCState :=
  { s with scopeStack := s.scopeStack.tail }

def ncMessage (maxDepth : Nat) : String :=
  "Avoid nesting conditionals more than " ++ toString maxDepth ++
    " levels within the same scope. Prefer early returns or extract branches into separate functions."

/-- The per-construct nesting-depth increment of `enterConditional`:
`isElseIf(node) ? 0 : 1`. -/
def ncIncrement (n : Node) (anc : Anc) : Nat :=
  if isElseIf n anc then 0 else 1

/-- `enterConditional`: no current scope is a no-op; otherwise compute the
increment (0 for else-if), report when the new depth exceeds the threshold,
record the new depth and push the increment. -/
def ncEnterConditional (maxDepth : Nat) (n : Node) (anc : Anc) (s : NCState) : NCState :=
  match s.scopeStack with
  | [] => s
  | scope :: rest =>
      let increment : Nat := ncIncrement n anc
      let nextDepth := scope.depth + increment
      let diags :=
        if nextDepth > maxDepth then s.diags ++ [⟨n, ncMessage maxDepth⟩] else s.diags
      { scopeStack := ⟨nextDepth, increment :: scope.increments⟩ :: rest, diags := diags }

/-- `exitConditional`: no current scope, or no recorded increment, is a no-op;
otherwise pop the increment and subtract it from the depth. -/
def ncExitConditional (s : NCState) : NCState :=
  match s.scopeStack with
  | [] => s
  | scope :: rest =>
      match scope.increments with
      | [] => s
      | increment :: incs =>
          { s with scopeStack := ⟨scope.depth - increment, incs⟩ :: rest }

/- The visitor slots of the returned visitor object, one function per slot.
The three function-kind slots share one body in the source
(`if (isFunctionLike(node)) enterScope()`), as do the three conditional-kind
slots (`if (node.type === "...") enterConditional(node)`). -/

def ncVisitProgram (_ : Node) (s : NCState) : NCState := ncEnterScope s

def ncVisitProgramExit (_ : Node) (s : NCState) : NCState := ncExitScope s

def ncVisitFunction (n : Node) (s : NCState) : NCState :=
  if isFunctionLikeB n then ncEnterScope s else s

def ncVisitFunctionExit (_ : Node) (s : NCState) : NCState := ncExitScope s

def ncVisitBlockStatement (n : Node) (anc : Anc) (s : NCState) : NCState :=
  if isStandaloneBlock n anc then ncEnterScope s else s

def ncVisitBlockStatementExit (n : Node) (anc : Anc) (s : NCState) : NCState :=
  if isStandaloneBlock n anc then ncExitScope s else s

def ncVisitIfStatement (maxDepth : Nat) (n : Node) (anc : Anc) (s : NCState) : NCState :=
  if typeOf n == "IfStatement" then ncEnterConditional maxDepth n anc s else s

def ncVisitConditionalExpression (maxDepth : Nat) (n : Node) (anc : Anc) (s : NCState) : NCState :=
  if typeOf n == "ConditionalExpression" then ncEnterConditional maxDepth n anc s else s

def ncVisitSwitchStatement (maxDepth : Nat) (n : Node) (anc : Anc) (s : NCState) : NCState :=
  if typeOf n == "SwitchStatement" then ncEnterConditional maxDepth n anc s else s

def ncVisitConditionalExit (_ : Node) (s : NCState) : NCState := ncExitConditional s

/-- Host dispatch: each enter/exit event invokes the slot registered for the
event node's kind, if any. -/
def ncStep (maxDepth : Nat) (ev : TEvent) (s : NCState) : NCState :=
  if ev.isExit then
    match typeOf ev.node with
    | "Program" => ncVisitProgramExit ev.node s
    | "FunctionDeclaration" => ncVisitFunctionExit ev.node s
    | "FunctionExpression" => ncVisitFunctionExit ev.node s
    | "ArrowFunctionExpression" => ncVisitFunctionExit ev.node s
    | "BlockStatement" => ncVisitBlockStatementExit ev.node ev.anc s
    | "IfStatement" => ncVisitConditionalExit ev.node s
    | "ConditionalExpression" => ncVisitConditionalExit ev.node s
    | "SwitchStatement" => ncVisitConditionalExit ev.node s
    | _ => s
  else
    match typeOf ev.node with
    | "Program" => ncVisitProgram ev.node s
    | "FunctionDeclaration" => ncVisitFunction ev.node s
    | "FunctionExpression" => ncVisitFunction ev.node s
    | "ArrowFunctionExpression" => ncVisitFunction ev.node s
    | "BlockStatement" => ncVisitBlockStatement ev.node ev.anc s
    | "IfStatement" => ncVisitIfStatement maxDepth ev.node ev.anc s
    | "ConditionalExpression" => ncVisitConditionalExpression maxDepth ev.node ev.anc s
    | "SwitchStatement" => ncVisitSwitchStatement maxDepth ev.node ev.anc s
    | _ => s

/-- One full analysis run of `no-nested-conditionals` over a tree. -/
def ncRun (maxDepth : Nat) (root : Node) : NCState :=
  runRule (ncStep maxDepth) root ⟨[], []⟩

/-! ### Rule `no-top-level-let` (tracks top-level mutable `const` bindings) -/

/-- A diagnostic reported through a message template id plus named data
(the template text lives in the rule metadata, owned by the host). -/
structure TLDiag where
  node : Node
  messageId : String
  dataName : Option String
  deriving Repr

/-- Rule state: the `createOnce`-closure `Set` of tracked top-level mutable
binding names, and the diagnostics reported during the current traversal. -/
structure TLState where
  topLevelMutableBindings : List String
  diags : List TLDiag
  deriving Repr

/-- `isTopLevelVariableDeclaration`, applied to the declaration's parent
chain: parent is the program, or an export declaration directly under the
program. -/
def isTopLevelVariableDeclaration (anc : Anc) : Bool :=
  match anc with
  | [] => false
  | (p, _) :: rest =>
      if typeOf p == "Program" then true
      else
        typeOf p == "ExportNamedDeclaration" &&
          (match rest with
           | (gp, _) :: _ => typeOf gp == "Program"
           | [] => false)

/-- `isMutableObjectInit`: object/array literal, or `new` of one of the four
mutable built-in collection constructors. -/
def isMutableObjectInit : Option Node → Bool
  | none => false
  | some n =>
      if typeOf n == "ObjectExpression" || typeOf n == "ArrayExpression" then true
      else
        match n with
        | .newExpression (.identifier nm) _ =>
            ["Map", "Set", "WeakMap", "WeakSet"].contains nm
        | _ => false

/-- `unwrapExpression` + the member-chain walk of `getMemberRootName`: strip
TS casts, follow `object` of member chains, and return the root identifier
name, if any. -/
def getMemberRootName : Node → Option String
  | .tsAsExpression e => getMemberRootName e
  | .tsNonNullExpression e => getMemberRootName e
  | .memberExpression o _ _ => getMemberRootName o
  | .identifier nm => some nm
  | _ => none

/-- `getMemberPropertyName`: non-computed identifier property, or a string
literal property. -/
def getMemberPropertyName : Node → Option String
  | .memberExpression _ (.identifier nm) false => some nm
  | .memberExpression _ (.literal (some sv)) _ => some sv
  | _ => none

def mutatingMethods : List String :=
  ["push", "pop", "splice", "shift", "unshift", "sort", "reverse",
   "copyWithin", "fill", "set", "add", "delete", "clear"]

/-- `VariableDeclaration` visitor: report `noLet` for `let` declarations that
are neither at module scope nor a `for` initializer.  (`for`-`in`/`of` left
positions are outside the modelled node fragment.) -/
def tlVisitVariableDeclaration (n : Node) (anc : Anc) (s : TLState) : TLState :=
  match n with
  | .variableDeclaration kind _ =>
      if kind != "let" then s
      else if isTopLevelVariableDeclaration anc then s
      else
        match anc with
        | (p, e) :: _ =>
            if typeOf p == "ForStatement" && e == Edge.init then s
            else { s with diags := s.diags ++ [⟨n, "noLet", none⟩] }
        | [] => { s with diags := s.diags ++ [⟨n, "noLet", none⟩] }
  | _ => s

/-- `VariableDeclarator` visitor: track a top-level `const` binding with a
mutable initializer under its identifier name. -/
def tlVisitVariableDeclarator (n : Node) (anc : Anc) (s : TLState) : TLState :=
  match n with
  | .variableDeclarator did dinit =>
      match anc with
      | [] => s
      | (decl, _) :: rest =>
          match decl with
          | .variableDeclaration kind _ =>
              if kind != "const" then s
              else if !isTopLevelVariableDeclaration rest then s
              else if !isMutableObjectInit dinit then s
              else
                match did with
                | .identifier nm =>
                    { s with topLevelMutableBindings := s.topLevelMutableBindings ++ [nm] }
                | _ => s
          | _ => s
  | _ => s

/-- `AssignmentExpression` visitor: member assignment whose root identifier is
a tracked binding. -/
def tlVisitAssignmentExpression (n : Node) (s : TLState) : TLState :=
  match n with
  | .assignmentExpression _ lhs _ =>
      if typeOf lhs != "MemberExpression" then s
      else
        match getMemberRootName lhs with
        | none => s
        | some rootName =>
            if s.topLevelMutableBindings.contains rootName then
              { s with diags := s.diags ++ [⟨n, "topLevelMutation", some rootName⟩] }
            else s
  | _ => s

/-- `UpdateExpression` visitor: increment/decrement of a member of a tracked
binding. -/
def tlVisitUpdateExpression (n : Node) (s : TLState) : TLState :=
  match n with
  | .updateExpression argument =>
      if typeOf argument != "MemberExpression" then s
      else
        match getMemberRootName argument with
        | none => s
        | some rootName =>
            if s.topLevelMutableBindings.contains rootName then
              { s with diags := s.diags ++ [⟨n, "topLevelMutation", some rootName⟩] }
            else s
  | _ => s

/-- `CallExpression` visitor: recognized mutating method call on a tracked
binding. -/
def tlVisitCallExpression (n : Node) (s : TLState) : TLState :=
  match n with
  | .callExpression callee _ =>
      if typeOf callee != "MemberExpression" then s
      else
        match getMemberRootName callee with
        | none => s
        | some rootName =>
            if !(s.topLevelMutableBindings.contains rootName) then s
            else
              match getMemberPropertyName callee with
              | none => s
              | some methodName =>
                  if mutatingMethods.contains methodName then
                    { s with diags := s.diags ++ [⟨n, "topLevelMutation", some rootName⟩] }
                  else s
  | _ => s

/-- Host dispatch for the rule (enter-only visitors). -/
def tlStep (ev : TEvent) (s : TLState) : TLState :=
  if ev.isExit then s
  else
    match typeOf ev.node with
    | "VariableDeclaration" => tlVisitVariableDeclaration ev.node ev.anc s
    | "VariableDeclarator" => tlVisitVariableDeclarator ev.node ev.anc s
    | "AssignmentExpression" => tlVisitAssignmentExpression ev.node s
    | "UpdateExpression" => tlVisitUpdateExpression ev.node s
    | "CallExpression" => tlVisitCallExpression ev.node s
    | _ => s

/-- One traversal of the rule starting from a given tracked-bindings set;
diagnostics are collected per traversal by the host.  The bindings set lives
in the `createOnce` closure, so a later traversal by the same rule instance
starts from whatever the set holds after the earlier ones. -/
def tlRunFrom (bindings : List String) (root : Node) : TLState :=
  runRule tlStep root ⟨bindings, []⟩

/-- A traversal by a freshly created rule instance (empty bindings set). -/
def tlRun (root : Node) : TLState := tlRunFrom [] root

/-! ### Rule `no-inline-components` (JSX-returning functions nested in JSX-returning functions) -/

/-- `RecordedAssignment`: a store of JSX into locals, with the bound names. -/
structure RecordedAssignment where
  node : Node
  names : List String
  deriving Repr

/-- `NestedFunctionRecord`: a completed nested JSX-returning child function. -/
structure NestedFunctionRecord where
  node : Node
  name : String
  deriving Repr

/-- `FunctionContext`: the per-function scope frame.  The `parent` field of
the source is the next frame down the stack; `anc` carries the parent
pointers of `node`. -/
structure FnCtx where
  node : Node
  anc : Anc
  name : String
  returnsJsx : Bool
  jsxBindingNames : List String
  jsxAssignments : List RecordedAssignment
  nestedJsxChildren : List NestedFunctionRecord
  deriving Repr

structure ICState where
  functionStack : List FnCtx
  diags : List Diag
  deriving Repr

def describeFunction (name : String) : String :=
  if name != "" then "function " ++ sQuote ++ name ++ sQuote else "this function"

def describeNested (name : String) : String :=
  if name != "" then "function " ++ sQuote ++ name ++ sQuote else "an anonymous function"

def createAssignmentMessage (names : List String) (fnName : String) : String :=
  let target :=
    match names with
    | [] => "local variables"
    | [nm] => "local " ++ sQuote ++ nm ++ sQuote
    | _ => "locals " ++ String.intercalate ", " (names.map (fun nm => sQuote ++ nm ++ sQuote))
  "Avoid storing JSX in " ++ target ++ " inside " ++ describeFunction fnName ++
    "; return the JSX directly instead."

def createNestedFunctionMessage (childName parentName : String) : String :=
  "JSX-returning " ++ describeNested childName ++ " should not be declared inside " ++
    describeFunction parentName ++ ". Extract it to module scope."

def createIIFEMessage (name : String) : String :=
  "JSX-returning " ++ describeNested name ++
    " should not be declared as an immediately invoked function expression (IIFE). Extract it to a named function at module scope."

/-- `enterFunction`: push a fresh frame; an expression-bodied arrow whose body
already produces JSX is marked `returnsJsx` at entry (the binding set is
empty at that point). -/
def icEnterFunction (n : Node) (anc : Anc) (s : ICState) : ICState :=
  let fnCtx : FnCtx :=
    { node := n, anc := anc, name := getFunctionName n anc, returnsJsx := false,
      jsxBindingNames := [], jsxAssignments := [], nestedJsxChildren := [] }
  let fnCtx :=
    match n with
    | .arrowFunctionExpression _ b =>
        if typeOf b != "BlockStatement" && expressionProducesJsx b fnCtx.jsxBindingNames then
          { fnCtx with returnsJsx := true }
        else fnCtx
    | _ => fnCtx
  { s with functionStack := fnCtx :: s.functionStack }

/-- `exitFunction`: pop (no-op on an empty stack); an immediately invoked
JSX-returning function reports the IIFE diagnostic and stops; otherwise a
named, JSX-returning, non-JSX-prop child is queued into the parent frame;
then, if the popped function returns JSX, flush its recorded JSX assignments
and its completed nested JSX children. -/
def icExitFunction (s : ICState) : ICState :=
  match s.functionStack with
  | [] => s
  | fnCtx :: rest =>
      if fnCtx.returnsJsx && isFunctionImmediatelyInvoked fnCtx.anc then
        { functionStack := rest,
          diags := s.diags ++ [⟨fnCtx.node, createIIFEMessage fnCtx.name⟩] }
      else
        let rest1 :=
          if !rest.isEmpty && fnCtx.returnsJsx && fnCtx.name != "" &&
              !isFunctionUsedAsJsxProp fnCtx.anc then
            match rest with
            | parent :: more =>
                { parent with
                  nestedJsxChildren :=
                    parent.nestedJsxChildren ++ [⟨fnCtx.node, fnCtx.name⟩] } :: more
            | [] => rest
          else rest
        if !fnCtx.returnsJsx then { functionStack := rest1, diags := s.diags }
        else
          { functionStack := rest1,
            diags :=
              s.diags ++
                fnCtx.jsxAssignments.map
                  (fun a => Diag.mk a.node (createAssignmentMessage a.names fnCtx.name)) ++
                fnCtx.nestedJsxChildren.map
                  (fun r => Diag.mk r.node (createNestedFunctionMessage r.name fnCtx.name)) }

/-- `handleReturnStatement`: a non-function return argument that produces JSX
(under the current frame's binding set) marks the current frame. -/
def icHandleReturnStatement (n : Node) (s : ICState) : ICState :=
  match s.functionStack with
  | [] => s
  | fnCtx :: rest =>
      match n with
      | .returnStatement (some argument) =>
          if isFunctionLikeB argument then s
          else if expressionProducesJsx argument fnCtx.jsxBindingNames then
            { s with functionStack := { fnCtx with returnsJsx := true } :: rest }
          else s
      | _ => s

/-- `handleVariableDeclarator`: a non-function initializer containing JSX
records the bound names as JSX bindings and queues an assignment diagnostic
for the initializer node. -/
def icHandleVariableDeclarator (n : Node) (s : ICState) : ICState :=
  match s.functionStack with
  | [] => s
  | fnCtx :: rest =>
      match n with
      | .variableDeclarator did (some init) =>
          if isFunctionLikeB init then s
          else if !expressionContainsJsx init then s
          else
            let names := collectBindingNames did []
            { s with
              functionStack :=
                { fnCtx with
                  jsxBindingNames := fnCtx.jsxBindingNames ++ names,
                  jsxAssignments := fnCtx.jsxAssignments ++ [⟨init, names⟩] } :: rest }
      | _ => s

/-- `handleAssignmentExpression`: a plain `=` whose right side contains JSX;
identifier left sides are recorded as JSX bindings. -/
def icHandleAssignmentExpression (n : Node) (s : ICState) : ICState :=
  match n with
  | .assignmentExpression op lhs rhs =>
      if op != "=" then s
      else
        match s.functionStack with
        | [] => s
        | fnCtx :: rest =>
            if isFunctionLikeB rhs then s
            else if !expressionContainsJsx rhs then s
            else
              let names := match lhs with | .identifier nm => [nm] | _ => []
              { s with
                functionStack :=
                  { fnCtx with
                    jsxBindingNames := fnCtx.jsxBindingNames ++ names,
                    jsxAssignments := fnCtx.jsxAssignments ++ [⟨rhs, names⟩] } :: rest }
  | _ => s

/-- `handleCallExpression`: `array.push(<JSX>)` on an identifier array records
the array name as a JSX binding and queues an assignment diagnostic for the
call node. -/
def icHandleCallExpression (n : Node) (s : ICState) : ICState :=
  match s.functionStack with
  | [] => s
  | fnCtx :: rest =>
      match n with
      | .callExpression (.memberExpression (.identifier arrayName) (.identifier "push") _) args =>
          let hasJsxArgument :=
            args.any (fun arg =>
              match arg with
              | .spreadElement _ => false
              | _ => expressionContainsJsx arg)
          if hasJsxArgument then
            { s with
              functionStack :=
                { fnCtx with
                  jsxBindingNames := fnCtx.jsxBindingNames ++ [arrayName],
                  jsxAssignments := fnCtx.jsxAssignments ++ [⟨n, [arrayName]⟩] } :: rest }
          else s
      | _ => s

/-- The visitor slots with their kind guards, and the host dispatch. -/
def icVisitFunction (n : Node) (anc : Anc) (s : ICState) : ICState :=
  if isFunctionLikeB n then icEnterFunction n anc s else s

def icVisitFunctionExit (_ : Node) (s : ICState) : ICState := icExitFunction s

def icVisitReturnStatement (n : Node) (s : ICState) : ICState :=
  if typeOf n == "ReturnStatement" then icHandleReturnStatement n s else s

def icVisitVariableDeclarator (n : Node) (s : ICState) : ICState :=
  if typeOf n == "VariableDeclarator" then icHandleVariableDeclarator n s else s

def icVisitAssignmentExpression (n : Node) (s : ICState) : ICState :=
  if typeOf n == "AssignmentExpression" then icHandleAssignmentExpression n s else s

def icVisitCallExpression (n : Node) (s : ICState) : ICState :=
  if typeOf n == "CallExpression" then icHandleCallExpression n s else s

def icStep (ev : TEvent) (s : ICState) : ICState :=
  if ev.isExit then
    match typeOf ev.node with
    | "FunctionDeclaration" => icVisitFunctionExit ev.node s
    | "FunctionExpression" => icVisitFunctionExit ev.node s
    | "ArrowFunctionExpression" => icVisitFunctionExit ev.node s
    | _ => s
  else
    match typeOf ev.node with
    | "FunctionDeclaration" => icVisitFunction ev.node ev.anc s
    | "FunctionExpression" => icVisitFunction ev.node ev.anc s
    | "ArrowFunctionExpression" => icVisitFunction ev.node ev.anc s
    | "ReturnStatement" => icVisitReturnStatement ev.node s
    | "VariableDeclarator" => icVisitVariableDeclarator ev.node s
    | "AssignmentExpression" => icVisitAssignmentExpression ev.node s
    | "CallExpression" => icVisitCallExpression ev.node s
    | _ => s

/-- One full analysis run of `no-inline-components` over a tree. -/
def icRun (root : Node) : ICState := runRule icStep root ⟨[], []⟩

/-! ### Rule `no-nested-pure-functions` -/

/-- `isReactHookCall`: a call of an identifier starting with `use`, or of
`React.<use...>`. -/
def isReactHookCall : Node → Bool
  | .callExpression (.identifier nm) _ => nm.startsWith "use"
  | .callExpression (.memberExpression (.identifier "React") (.identifier pnm) _) _ =>
      pnm.startsWith "use"
  | _ => false

/-- `containsJSX` (no-nested-pure-functions): same work-list search as
`expressionContainsJsx`, rooted at the function node itself. -/
def containsJSX (n : Node) : Bool :=
  runSearch (fun c _ => isJsxNodeType c) [(n, none, true)]

/-- The function body, when present (`node.body`). -/
def bodyOf : Node → Option Node
  | .functionDeclaration _ _ b => some b
  | .functionExpression _ _ b => some b
  | .arrowFunctionExpression _ b => some b
  | _ => none

def paramsOf : Node → List Node
  | .functionDeclaration _ ps _ => ps
  | .functionExpression _ ps _ => ps
  | .arrowFunctionExpression ps _ => ps
  | _ => []

/-- `containsHooks`: work-list search of the function body for a hook-style
call, not descending into non-root functions (the root of this search is the
body). -/
def containsHooks (n : Node) : Bool :=
  match bodyOf n with
  | none => false
  | some b => runSearch (fun c _ => isReactHookCall c) [(b, some (n, Edge.body), true)]

/-- `isWrappedInHook`: the function's parent is a hook-style call. -/
def isWrappedInHook (anc : Anc) : Bool :=
  match anc with
  | (p, _) :: _ => typeOf p == "CallExpression" && isReactHookCall p
  | [] => false

/-- The fixed allow-list of global names of `checkNodeForScopeAccess`. -/
def globalNames : List String :=
  ["console", "Math", "Date", "JSON", "Object", "Array", "String", "Number",
   "Boolean", "parseInt", "parseFloat", "isNaN", "isFinite", "undefined",
   "null", "true", "false", "Infinity", "NaN", "Map", "Set", "WeakMap",
   "WeakSet", "Promise", "Symbol", "Error", "TypeError", "ReferenceError",
   "SyntaxError"]

/-- The per-node check of `checkNodeForScopeAccess`: an identifier reference
is an enclosing-scope access when it is not the binding side of a declaration
(parent a declarator or function declaration, or the key of a `Property`),
not a local name, and not an allow-listed global. -/
def scopeAccessPred (localNames : List String) (current : Node)
    (pinfo : Option (Node × Edge)) : Bool :=
  match current with
  | .identifier nm =>
      let skipDecl :=
        match pinfo with
        | some (p, e) =>
            typeOf p == "VariableDeclarator" || typeOf p == "FunctionDeclaration" ||
              (typeOf p == "Property" && e == Edge.key)
        | none => false
      if skipDecl then false
      else !(localNames.contains nm) && !(globalNames.contains nm)
  | _ => false

/-- `checkNodeForScopeAccess` (and `checkExpressionForScopeAccess`, which the
source defines as the same search): work-list search rooted at `n` (with
`n`'s own parent info, since the skip-check reads `current.parent`). -/
def checkNodeForScopeAccess (n : Node) (pinfo : Option (Node × Edge))
    (localNames : List String) : Bool :=
  runSearch (scopeAccessPred localNames) [(n, pinfo, true)]

/-- `accessesEnclosingScope`: run the scope-access search over the function
body (block-bodied and expression-bodied functions use the same search). -/
def accessesEnclosingScope (n : Node) (localNames : List String) : Bool :=
  match bodyOf n with
  | none => false
  | some b => checkNodeForScopeAccess b (some (n, Edge.body)) localNames

/-- `collectLocalNames`: parameter pattern names, plus the names declared by
`VariableDeclaration` statements at the top statement level of a block body. -/
def collectLocalNames (n : Node) : List String :=
  let names : List String := []
  let names := (paramsOf n).foldl (fun acc p => collectPatternNames p acc) names
  match bodyOf n with
  | some (.blockStatement stmts) =>
      stmts.foldl
        (fun acc stmt =>
          match stmt with
          | .variableDeclaration _ decls =>
              decls.foldl
                (fun acc2 d =>
                  match d with
                  | .variableDeclarator did _ => collectPatternNames did acc2
                  | _ => acc2)
                acc
          | _ => acc)
        names
  | _ => names

/-- `isPureFunction`: no JSX, no hook calls, not wrapped in a hook call, and
no reference out of the local-name set. -/
def isPureFunction (n : Node) (anc : Anc) : Bool :=
  if containsJSX n then false
  else if containsHooks n then false
  else if isWrappedInHook anc then false
  else if accessesEnclosingScope n (collectLocalNames n) then false
  else true

def npMessage (functionName enclosingFunctionName : String) : String :=
  "Named pure function " ++ sQuote ++ functionName ++ sQuote ++
    " should not be declared inside " ++ sQuote ++ enclosingFunctionName ++ sQuote ++
    ". Extract it to module scope."

/-- `handleVariableDeclarator` (no-nested-pure-functions): a named
function-valued declarator inside some enclosing function, whose function is
pure, is reported for extraction. -/
def npHandleVariableDeclarator (n : Node) (anc : Anc) (diags : List Diag) : List Diag :=
  match n with
  | .variableDeclarator did (some init) =>
      if !isFunctionLikeB init then diags
      else
        match did with
        | .identifier functionName =>
            match getEnclosingFunctionAux anc with
            | none => diags
            | some (encl, enclAnc) =>
                if !isPureFunction init ((n, Edge.init) :: anc) then diags
                else
                  diags ++ [⟨init, npMessage functionName (getFunctionName encl enclAnc)⟩]
        | _ => diags
  | _ => diags

def npVisitVariableDeclarator (n : Node) (anc : Anc) (diags : List Diag) : List Diag :=
  if typeOf n == "VariableDeclarator" then npHandleVariableDeclarator n anc diags else diags

def npStep (ev : TEvent) (diags : List Diag) : List Diag :=
  if ev.isExit then diags
  else
    match typeOf ev.node with
    | "VariableDeclarator" => npVisitVariableDeclarator ev.node ev.anc diags
    | _ => diags

/-- One full analysis run of `no-nested-pure-functions` over a tree. -/
def npRun (root : Node) : List Diag := runRule npStep root []

/-! ## Claim-specific input trees -/

/-- A chain of `k` if statements, each directly the consequent of the previous
one; the innermost consequent is an empty block. -/
def nestedIfs : Nat → Node
  | 0 => .blockStatement []
  | k + 1 => .ifStatement (.literal none) (nestedIfs k) none

/-- `function f() { if (c) { { if (c) { if (c) {} } } } }`: two ifs nested
inside a standalone block that sits inside the consequent of an outer if. -/
def c4InnerIfs : Node := .ifStatement (.literal none) (.blockStatement [nestedIfs 1]) none

def c4StandaloneBlock : Node := .blockStatement [c4InnerIfs]

def c4FnStandalone : Node :=
  .functionDeclaration (some (.identifier "f")) []
    (.blockStatement
      [.ifStatement (.literal none) (.blockStatement [c4StandaloneBlock]) none])

def c4ProgStandalone : Node := .program [c4FnStandalone]

/-- `function g() { if (c) { if (c) { if (c) {} } } }`: the same three-deep
conditional nesting but through conditional-body blocks only. -/
def c4If3 : Node := .ifStatement (.literal none) (.blockStatement []) none

def c4If2 : Node := .ifStatement (.literal none) (.blockStatement [c4If3]) none

def c4If1 : Node := .ifStatement (.literal none) (.blockStatement [c4If2]) none

def c4FnPlain : Node :=
  .functionDeclaration (some (.identifier "g")) [] (.blockStatement [c4If1])

def c4ProgPlain : Node := .program [c4FnPlain]

/-- C4: an `if` inside a standalone block (a block whose parent is the program,
a function body block, or another block) counts nesting relative to a fresh
frame pushed for that block and does not accumulate with conditional nesting
outside the block (the three-deep chain through a standalone block reports
nothing), while blocks serving as conditional bodies push no frame of their
own (the same three-deep chain through conditional-body blocks reports the
innermost `if`). -/
theorem c4_standalone_block_scope_reset :
    (ncRun DEFAULT_MAX_DEPTH c4ProgStandalone).diags = [] ∧
      (ncRun DEFAULT_MAX_DEPTH c4ProgPlain).diags = [⟨c4If3, ncMessage 2⟩] := by
  exact ⟨rfl, rfl⟩

/-- `b.count = next`, a member assignment rooted at the binding `b`. -/
def c6Assign (b : String) : Node :=
  .assignmentExpression "="
    (.memberExpression (.identifier b) (.identifier "count") false) (.identifier "next")

/-- Top-level `const b = {}`, then `b.count = next` at top level and again
inside a function. -/
def c6ProgConst (b : String) : Node :=
  .program
    [.variableDeclaration "const" [.variableDeclarator (.identifier b) (some (.objectExpression []))],
     .expressionStatement (c6Assign b),
     .functionDeclaration (some (.identifier "f")) []
       (.blockStatement [.expressionStatement (c6Assign b)])]

/-- The same program with `let` instead of `const`. -/
def c6ProgLet (b : String) : Node :=
  .program
    [.variableDeclaration "let" [.variableDeclarator (.identifier b) (some (.objectExpression []))],
     .expressionStatement (c6Assign b),
     .functionDeclaration (some (.identifier "f")) []
       (.blockStatement [.expressionStatement (c6Assign b)])]

/-- `const b = {}` inside a function, followed by `b.count = next` there. -/
def c6ProgInnerConst (b : String) : Node :=
  .program
    [.functionDeclaration (some (.identifier "g")) []
      (.blockStatement
        [.variableDeclaration "const"
          [.variableDeclarator (.identifier b) (some (.objectExpression []))],
         .expressionStatement (c6Assign b)])]

def c6InnerLetDecl (b : String) : Node :=
  .variableDeclaration "let" [.variableDeclarator (.identifier b) (some (.objectExpression []))]

/-- `let b = {}` inside a function, followed by `b.count = next` there. -/
def c6ProgInnerLet (b : String) : Node :=
  .program
    [.functionDeclaration (some (.identifier "g")) []
      (.blockStatement [c6InnerLetDecl b, .expressionStatement (c6Assign b)])]

def c6AssignDeep (b : String) : Node :=
  .assignmentExpression "="
    (.memberExpression
      (.memberExpression (.identifier b) (.identifier "a") false) (.identifier "b2") false)
    (.identifier "next")

/-- Top-level `const b = new Map()`, then a deep member assignment
`b.a.b2 = next`. -/
def c6ProgNewMap (b : String) : Node :=
  .program
    [.variableDeclaration "const"
      [.variableDeclarator (.identifier b)
        (some (.newExpression (.identifier "Map") []))],
     .expressionStatement (c6AssignDeep b)]

/-- C6: a top-level `const` binding initialized with an object literal makes
every later member assignment rooted at it report once, naming the binding, at
top level and at nested scope depth alike; with `let` instead of `const`, or
with the binding inside a function, no mutation diagnostic fires — and a
non-top-level `let` fires the separate `noLet` diagnostic instead.  A
`new Map()` initializer is tracked too, and the member-chain root is resolved
through nested member accesses. -/
theorem c6_top_level_mutation_tracking (b : String) :
    (tlRun (c6ProgConst b)).diags =
        [⟨c6Assign b, "topLevelMutation", some b⟩, ⟨c6Assign b, "topLevelMutation", some b⟩] ∧
      (tlRun (c6ProgLet b)).diags = [] ∧
      (tlRun (c6ProgInnerConst b)).diags = [] ∧
      (tlRun (c6ProgInnerLet b)).diags = [⟨c6InnerLetDecl b, "noLet", none⟩] ∧
      (tlRun (c6ProgNewMap b)).diags = [⟨c6AssignDeep b, "topLevelMutation", some b⟩] := by
  refine ⟨?_, ?_, ?_, ?_, ?_⟩ <;>
    simp [tlRun, tlRunFrom, runRule, c6ProgConst, c6ProgLet, c6ProgInnerConst, c6ProgInnerLet,
      c6ProgNewMap, c6Assign, c6AssignDeep, c6InnerLetDecl, traverseLoop, childrenE, optChild,
      Node.size, Node.sizeList, Node.sizeOpt, tlStep, typeOf,
      tlVisitVariableDeclaration, tlVisitVariableDeclarator, tlVisitAssignmentExpression,
      tlVisitUpdateExpression, tlVisitCallExpression, isTopLevelVariableDeclaration,
      isMutableObjectInit, getMemberRootName, getMemberPropertyName, mutatingMethods,
      List.contains]

/-- First tree of the persistence scenario: `const state = {}` at top level. -/
def c5Tree1 : Node :=
  .program
    [.variableDeclaration "const"
      [.variableDeclarator (.identifier "state") (some (.objectExpression []))]]

def c5Assign : Node :=
  .assignmentExpression "="
    (.memberExpression (.identifier "state") (.identifier "count") false) (.literal none)

/-- Second tree: only `state.count = 1`, with no declaration of `state`. -/
def c5Tree2 : Node := .program [.expressionStatement c5Assign]

/-- C5 (failing-input evaluation): the tracked-bindings set of the
`no-top-level-let` rule lives in the `createOnce` closure and is never reset,
so running the once-created visitor over `c5Tree1` and then over `c5Tree2`
reports a mutation diagnostic in `c5Tree2` that a fresh run over `c5Tree2`
does not report: the second-run diagnostics differ from the fresh-run
diagnostics. -/
theorem c5_binding_set_persists_across_runs :
    (tlRunFrom (tlRun c5Tree1).topLevelMutableBindings c5Tree2).diags =
        [⟨c5Assign, "topLevelMutation", some "state"⟩] ∧
      (tlRun c5Tree2).diags = [] ∧
      (tlRunFrom (tlRun c5Tree1).topLevelMutableBindings c5Tree2).diags ≠
        (tlRun c5Tree2).diags := by
  refine ⟨rfl, rfl, ?_⟩
  intro h
  rw [show (tlRunFrom (tlRun c5Tree1).topLevelMutableBindings c5Tree2).diags =
      [⟨c5Assign, "topLevelMutation", some "state"⟩] from rfl,
    show (tlRun c5Tree2).diags = [] from rfl] at h
  exact absurd h (by simp)

/-- `() => outerVar`. -/
def c7ClosureArrow : Node := .arrowFunctionExpression [] (.identifier "outerVar")

/-- `function Outer() { const outerVar = 1; const inner = () => outerVar; }` -/
def c7ProgClosure : Node :=
  .program
    [.functionDeclaration (some (.identifier "Outer")) []
      (.blockStatement
        [.variableDeclaration "const"
          [.variableDeclarator (.identifier "outerVar") (some (.literal none))],
         .variableDeclaration "const"
          [.variableDeclarator (.identifier "inner") (some c7ClosureArrow)]])]

/-- `(x) => x * 2`. -/
def c7PureArrow : Node :=
  .arrowFunctionExpression [.identifier "x"]
    (.binaryExpression "*" (.identifier "x") (.literal none))

/-- `function Outer() { const double = (x) => x * 2; }` -/
def c7ProgPure : Node :=
  .program
    [.functionDeclaration (some (.identifier "Outer")) []
      (.blockStatement
        [.variableDeclaration "const"
          [.variableDeclarator (.identifier "double") (some c7PureArrow)]])]

/-- C7: a named nested function whose body references an identifier bound in
the enclosing function is not classified pure and produces no extraction
diagnostic, while a named nested function referencing only its own parameters
is classified pure and reported once, naming both functions. -/
theorem c7_purity_free_reference_detection :
    isPureFunction c7ClosureArrow
        [(.variableDeclarator (.identifier "inner") (some c7ClosureArrow), Edge.init)] = false ∧
      npRun c7ProgClosure = [] ∧
      isPureFunction c7PureArrow
        [(.variableDeclarator (.identifier "double") (some c7PureArrow), Edge.init)] = true ∧
      npRun c7ProgPure = [⟨c7PureArrow, npMessage "double" "Outer"⟩] := by
  exact ⟨rfl, rfl, rfl, rfl⟩

/-- `() => <jsx/>`, the inner JSX-returning arrow named by its declarator. -/
def c1InnerArrow : Node := .arrowFunctionExpression [] (.jsxElement [] [])

/-- `function g() { const f = () => <jsx/>; return <jsx/>; }` — both the inner
and the outer function return JSX. -/
def c1ProgBothJsx (f g : String) : Node :=
  .program
    [.functionDeclaration (some (.identifier g)) []
      (.blockStatement
        [.variableDeclaration "const" [.variableDeclarator (.identifier f) (some c1InnerArrow)],
         .returnStatement (some (.jsxElement [] []))])]

/-- The same program except the outer function returns a non-JSX literal. -/
def c1ProgOuterPlain (f g : String) : Node :=
  .program
    [.functionDeclaration (some (.identifier g)) []
      (.blockStatement
        [.variableDeclaration "const" [.variableDeclarator (.identifier f) (some c1InnerArrow)],
         .returnStatement (some (.literal none))])]

def c1CxJsx : Node := .jsxElement [] []

/-- `function() { const x = <jsx/>; return x; }` — a JSX-returning inner
function that also stores JSX in a local. -/
def c1CxInnerFn : Node :=
  .functionExpression none []
    (.blockStatement
      [.variableDeclaration "const" [.variableDeclarator (.identifier "x") (some c1CxJsx)],
       .returnStatement (some (.identifier "x"))])

/-- `function Outer() { const Inner = function() { const x = <jsx/>; return x; };
return 0; }` — the outer function does not return JSX. -/
def c1CxProg : Node :=
  .program
    [.functionDeclaration (some (.identifier "Outer")) []
      (.blockStatement
        [.variableDeclaration "const"
          [.variableDeclarator (.identifier "Inner") (some c1CxInnerFn)],
         .returnStatement (some (.literal none))])]

/-- C1 (counterexample to the claim as stated): with the outer function not
returning a UI-element, the rule still emits a diagnostic — the inner
function's own JSX-in-local store is flushed at the inner function's exit,
regardless of the outer function. -/
theorem c1_counterexample_inner_content_reports :
    (icRun c1CxProg).diags = [⟨c1CxJsx, createAssignmentMessage ["x"] "Inner"⟩] ∧
      (icRun c1CxProg).diags ≠ [] := by
  refine ⟨rfl, ?_⟩
  intro h
  rw [show (icRun c1CxProg).diags = [⟨c1CxJsx, createAssignmentMessage ["x"] "Inner"⟩]
      from rfl] at h
  exact absurd h (by simp)

/-- C1 (amended): a named inner function returning JSX directly inside an
outer function that also returns JSX is reported exactly once, attributed to
the inner function's node, with both names present in the message; when the
outer function does not return JSX, no nested-function diagnostic is emitted
(for an inner function whose body only returns JSX, zero diagnostics),
although diagnostics that the inner function's own body generates (JSX stored
in locals, IIFE form) may still fire. -/
theorem c1_nested_jsx_function_reporting (f g : String) (hf : f ≠ "") (hg : g ≠ "") :
    (icRun (c1ProgBothJsx f g)).diags =
        [⟨c1InnerArrow, createNestedFunctionMessage f g⟩] ∧
      (∃ pre post : String, createNestedFunctionMessage f g = pre ++ f ++ post) ∧
      (∃ pre post : String, createNestedFunctionMessage f g = pre ++ g ++ post) ∧
      (icRun (c1ProgOuterPlain f g)).diags = [] := by
  refine ⟨?_, ?_, ?_, ?_⟩
  · simp [icRun, runRule, c1ProgBothJsx, c1InnerArrow, traverseLoop, childrenE, optChild,
      Node.size, Node.sizeList, Node.sizeOpt, icStep, typeOf,
      icVisitFunction, icVisitFunctionExit, icVisitReturnStatement, icVisitVariableDeclarator,
      icVisitAssignmentExpression, icVisitCallExpression,
      icEnterFunction, icExitFunction, icHandleReturnStatement, icHandleVariableDeclarator,
      icHandleAssignmentExpression, icHandleCallExpression,
      expressionProducesJsx, expressionProducesJsxF, expressionContainsJsx, runSearch,
      searchLoop, sizeEntries, isJsxNodeType, isFunctionLikeB, getFunctionName,
      isFunctionImmediatelyInvoked, isFunctionUsedAsJsxProp, collectBindingNames,
      collectPatternNames, collectPatternNamesF, hf, hg]
  · exact ⟨"JSX-returning " ++ "function " ++ sQuote,
      sQuote ++ " should not be declared inside " ++ describeFunction g ++
        ". Extract it to module scope.", by
      simp [createNestedFunctionMessage, describeNested, describeFunction, hf, hg,
        ← String.append_assoc]⟩
  · exact ⟨"JSX-returning " ++ describeNested f ++ " should not be declared inside " ++
        "function " ++ sQuote,
      sQuote ++ ". Extract it to module scope.", by
      simp [createNestedFunctionMessage, describeNested, describeFunction, hf, hg,
        ← String.append_assoc]⟩
  · simp [icRun, runRule, c1ProgOuterPlain, c1InnerArrow, traverseLoop, childrenE, optChild,
      Node.size, Node.sizeList, Node.sizeOpt, icStep, typeOf,
      icVisitFunction, icVisitFunctionExit, icVisitReturnStatement, icVisitVariableDeclarator,
      icVisitAssignmentExpression, icVisitCallExpression,
      icEnterFunction, icExitFunction, icHandleReturnStatement, icHandleVariableDeclarator,
      icHandleAssignmentExpression, icHandleCallExpression,
      expressionProducesJsx, expressionProducesJsxF, expressionContainsJsx, runSearch,
      searchLoop, sizeEntries, isJsxNodeType, isFunctionLikeB, getFunctionName,
      isFunctionImmediatelyInvoked, isFunctionUsedAsJsxProp, collectBindingNames,
      collectPatternNames, collectPatternNamesF, hf, hg]

/-- C1 witness: the amended theorem applied at concrete names. -/
theorem c1_nested_jsx_function_reporting_witness :
    ("Inner" : String) ≠ "" ∧ ("Outer" : String) ≠ "" ∧
      ((icRun (c1ProgBothJsx "Inner" "Outer")).diags =
          [⟨c1InnerArrow, createNestedFunctionMessage "Inner" "Outer"⟩] ∧
        (∃ pre post : String,
          createNestedFunctionMessage "Inner" "Outer" = pre ++ "Inner" ++ post) ∧
        (∃ pre post : String,
          createNestedFunctionMessage "Inner" "Outer" = pre ++ "Outer" ++ post) ∧
        (icRun (c1ProgOuterPlain "Inner" "Outer")).diags = []) :=
  ⟨by decide, by decide,
    c1_nested_jsx_function_reporting "Inner" "Outer" (by decide) (by decide)⟩

/-- C8: each bounded subtree search returns true exactly on the declarative
characterisation `Hit`: some node reachable from the search root without
passing through a strictly-descendant function-like node satisfies the
predicate — a descendant function node is itself still predicate-checked
(`Hit.here`) but its children are never traversed (the side condition of
`Hit.child`), and the root is traversed even when it is function-like
(the `isRoot = true` disjunct). -/
theorem c8_bounded_search_characterisation :
    (∀ root : Node,
        expressionContainsJsx root = true ↔ Hit (fun n _ => isJsxNodeType n) root none true) ∧
      (∀ n : Node, containsJSX n = true ↔ Hit (fun c _ => isJsxNodeType c) n none true) ∧
      (∀ n b : Node, bodyOf n = some b →
        (containsHooks n = true ↔
          Hit (fun c _ => isReactHookCall c) b (some (n, Edge.body)) true)) ∧
      (∀ (n : Node) (pinfo : Option (Node × Edge)) (localNames : List String),
        checkNodeForScopeAccess n pinfo localNames = true ↔
          Hit (scopeAccessPred localNames) n pinfo true) := by
  refine ⟨?_, ?_, ?_, ?_⟩
  · intro root
    exact runSearch_iff_hit _ root none
  · intro n
    exact runSearch_iff_hit _ n none
  · intro n b hb
    rw [containsHooks, hb]
    exact runSearch_iff_hit _ b _
  · intro n pinfo localNames
    exact runSearch_iff_hit _ n pinfo

/-- A function whose body is a single hook call, used to instantiate C8. -/
def c8Body : Node := .callExpression (.identifier "useState") []

def c8Fn : Node := .arrowFunctionExpression [] c8Body

/-- C8 witness: the hook-containment conjunct applied at a concrete function. -/
theorem c8_bounded_search_characterisation_witness :
    bodyOf c8Fn = some c8Body ∧
      (containsHooks c8Fn = true ↔
        Hit (fun c _ => isReactHookCall c) c8Body (some (c8Fn, Edge.body)) true) :=
  ⟨rfl, c8_bounded_search_characterisation.2.2.1 c8Fn c8Body rfl⟩

/-- C9 (counterexample to the claim as stated): the `Program` enter slot of
`no-nested-conditionals` carries no kind guard — invoked with a node of a
different kind it still pushes a scope frame, so the rule state does not stay
unchanged (it emits no diagnostic and does not throw, but the claim also
demands an unchanged state). -/
theorem c9_counterexample_unguarded_program_slot :
    typeOf (Node.literal none) ≠ "Program" ∧
      ncVisitProgram (Node.literal none) ⟨[], []⟩ ≠ (⟨[], []⟩ : NCState) := by
  refine ⟨by decide, ?_⟩
  intro h
  rw [show ncVisitProgram (Node.literal none) ⟨[], []⟩ = ⟨[⟨0, []⟩], []⟩ from rfl] at h
  exact absurd (congrArg NCState.scopeStack h) (by simp)

/-- C9 (amended): every scope-exit handler invoked on an empty scope stack is
a no-op (state unchanged, nothing reported, no exception — every handler is a
total function); every callback slot that begins with a kind or shape guard
returns with the state unchanged and no diagnostic when the guard rejects the
node; the slots with no guard (the `Program` slots and the exit slots of the
scope-stack rules) ignore their node argument and never report a diagnostic
on their own in the nesting rule, though they do push or pop a scope frame. -/
theorem c9_defensive_callbacks :
    (∀ s : NCState, s.scopeStack = [] → ncExitScope s = s) ∧
      (∀ s : NCState, s.scopeStack = [] → ncExitConditional s = s) ∧
      (∀ s : ICState, s.functionStack = [] → icExitFunction s = s) ∧
      (∀ (maxDepth : Nat) (n : Node) (anc : Anc) (s : NCState),
        typeOf n ≠ "IfStatement" → ncVisitIfStatement maxDepth n anc s = s) ∧
      (∀ (maxDepth : Nat) (n : Node) (anc : Anc) (s : NCState),
        typeOf n ≠ "ConditionalExpression" → ncVisitConditionalExpression maxDepth n anc s = s) ∧
      (∀ (maxDepth : Nat) (n : Node) (anc : Anc) (s : NCState),
        typeOf n ≠ "SwitchStatement" → ncVisitSwitchStatement maxDepth n anc s = s) ∧
      (∀ (n : Node) (s : NCState), isFunctionLikeB n = false → ncVisitFunction n s = s) ∧
      (∀ (n : Node) (anc : Anc) (s : NCState), typeOf n ≠ "BlockStatement" →
        ncVisitBlockStatement n anc s = s ∧ ncVisitBlockStatementExit n anc s = s) ∧
      (∀ (n : Node) (anc : Anc) (s : ICState),
        isFunctionLikeB n = false → icVisitFunction n anc s = s) ∧
      (∀ (n : Node) (s : ICState),
        typeOf n ≠ "ReturnStatement" → icVisitReturnStatement n s = s) ∧
      (∀ (n : Node) (s : ICState),
        typeOf n ≠ "VariableDeclarator" → icVisitVariableDeclarator n s = s) ∧
      (∀ (n : Node) (s : ICState),
        typeOf n ≠ "AssignmentExpression" → icVisitAssignmentExpression n s = s) ∧
      (∀ (n : Node) (s : ICState),
        typeOf n ≠ "CallExpression" → icVisitCallExpression n s = s) ∧
      (∀ (n : Node) (anc : Anc) (s : TLState),
        typeOf n ≠ "VariableDeclaration" → tlVisitVariableDeclaration n anc s = s) ∧
      (∀ (n : Node) (anc : Anc) (s : TLState),
        typeOf n ≠ "VariableDeclarator" → tlVisitVariableDeclarator n anc s = s) ∧
      (∀ (n : Node) (s : TLState),
        typeOf n ≠ "AssignmentExpression" → tlVisitAssignmentExpression n s = s) ∧
      (∀ (n : Node) (s : TLState),
        typeOf n ≠ "UpdateExpression" → tlVisitUpdateExpression n s = s) ∧
      (∀ (n : Node) (s : TLState),
        typeOf n ≠ "CallExpression" → tlVisitCallExpression n s = s) ∧
      (∀ (n : Node) (anc : Anc) (ds : List Diag),
        typeOf n ≠ "VariableDeclarator" → npVisitVariableDeclarator n anc ds = ds) ∧
      (∀ (n : Node) (s : NCState),
        (ncVisitProgram n s).diags = s.diags ∧ (ncVisitProgramExit n s).diags = s.diags ∧
          (ncVisitFunctionExit n s).diags = s.diags ∧
          (ncVisitConditionalExit n s).diags = s.diags) := by
  refine ⟨?_, ?_, ?_, ?_, ?_, ?_, ?_, ?_, ?_, ?_, ?_, ?_, ?_, ?_, ?_, ?_, ?_, ?_, ?_, ?_⟩
  · intro s h
    obtain ⟨st, d⟩ := s
    simp at h
    simp [ncExitScope, h]
  · intro s h
    obtain ⟨st, d⟩ := s
    simp at h
    subst h
    simp [ncExitConditional]
  · intro s h
    obtain ⟨st, d⟩ := s
    simp at h
    subst h
    simp [icExitFunction]
  · intro maxDepth n anc s h
    simp [ncVisitIfStatement, h]
  · intro maxDepth n anc s h
    simp [ncVisitConditionalExpression, h]
  · intro maxDepth n anc s h
    simp [ncVisitSwitchStatement, h]
  · intro n s h
    simp [ncVisitFunction, h]
  · intro n anc s h
    constructor <;> simp [ncVisitBlockStatement, ncVisitBlockStatementExit, isStandaloneBlock, h]
  · intro n anc s h
    simp [icVisitFunction, h]
  · intro n s h
    simp [icVisitReturnStatement, h]
  · intro n s h
    simp [icVisitVariableDeclarator, h]
  · intro n s h
    simp [icVisitAssignmentExpression, h]
  · intro n s h
    simp [icVisitCallExpression, h]
  · intro n anc s h
    cases n <;> simp_all [tlVisitVariableDeclaration, typeOf]
  · intro n anc s h
    cases n <;> simp_all [tlVisitVariableDeclarator, typeOf]
  · intro n s h
    cases n <;> simp_all [tlVisitAssignmentExpression, typeOf]
  · intro n s h
    cases n <;> simp_all [tlVisitUpdateExpression, typeOf]
  · intro n s h
    cases n <;> simp_all [tlVisitCallExpression, typeOf]
  · intro n anc ds h
    simp [npVisitVariableDeclarator, h]
  · intro n s
    refine ⟨rfl, rfl, rfl, ?_⟩
    obtain ⟨st, d⟩ := s
    cases st with
    | nil => rfl
    | cons scope rest => cases hi : scope.increments <;> simp [ncVisitConditionalExit, ncExitConditional, hi]

/-- C9 witness: the empty-stack exit no-op and a kind-guard no-op, at concrete
inputs. -/
theorem c9_defensive_callbacks_witness :
    ((⟨[], []⟩ : NCState).scopeStack = [] ∧ ncExitConditional ⟨[], []⟩ = ⟨[], []⟩) ∧
      (typeOf (Node.literal none) ≠ "IfStatement" ∧
        ncVisitIfStatement 2 (Node.literal none) [] ⟨[], []⟩ = ⟨[], []⟩) :=
  ⟨⟨rfl, c9_defensive_callbacks.2.1 ⟨[], []⟩ rfl⟩,
    ⟨by decide, c9_defensive_callbacks.2.2.2.1 2 (Node.literal none) [] ⟨[], []⟩ (by decide)⟩⟩

/-- Names bound by one pattern, with an empty accumulator. -/
def patternNames (p : Node) : List String := collectPatternNames p []

/-- Spec-side reading of the claim: the parameter-pattern names... -/
def c10SpecParamNames (ps : List Node) : List String :=
  (ps.map patternNames).join

/-- ...and the names declared by variable declarations at the top statement
level of the function body. -/
def c10SpecTopLevelDeclNames (stmts : List Node) : List String :=
  (stmts.map (fun stmt =>
    match stmt with
    | .variableDeclaration _ decls =>
        (decls.map (fun d =>
          match d with
          | .variableDeclarator did _ => patternNames did
          | _ => [])).join
    | _ => [])).join

theorem foldl_append_hom (step : List String → Node → List String)
    (hstep : ∀ (acc : List String) (el : Node), step acc el = acc ++ step [] el) :
    ∀ (els : List Node) (a : List String), els.foldl step a = a ++ els.foldl step [] := by
  intro els
  induction els with
  | nil => intro a; simp
  | cons el rest ihl =>
      intro a
      simp only [List.foldl_cons]
      rw [ihl (step a el), hstep a el, ihl (step [] el), List.append_assoc]

theorem collectPatternNamesF_append :
    ∀ (fuel : Nat) (p : Node) (a : List String),
      collectPatternNamesF fuel p a = a ++ collectPatternNamesF fuel p [] := by
  intro fuel
  induction fuel with
  | zero => intro p a; simp [collectPatternNamesF]
  | succ fuel ih =>
      intro p a
      cases p <;> simp only [collectPatternNamesF] <;>
        first
        | simp
        | exact ih _ a
        | exact foldl_append_hom
            (fun acc el =>
              match el with
              | .restElement a => collectPatternNamesF fuel a acc
              | _ => collectPatternNamesF fuel el acc)
            (fun acc el => by cases el <;> exact ih _ _) _ a
        | exact foldl_append_hom
            (fun acc p =>
              match p with
              | .property _ v => collectPatternNamesF fuel v acc
              | .restElement a => collectPatternNamesF fuel a acc
              | _ => acc)
            (fun acc el => by cases el <;> first | exact ih _ _ | simp) _ a

theorem collectPatternNames_append (p : Node) (a : List String) :
    collectPatternNames p a = a ++ patternNames p :=
  collectPatternNamesF_append p.size p a

theorem c10_paramsFold :
    ∀ (ps : List Node) (a : List String),
      ps.foldl (fun acc p => collectPatternNames p acc) a = a ++ c10SpecParamNames ps := by
  intro ps
  induction ps with
  | nil => intro a; simp [c10SpecParamNames]
  | cons p rest ih =>
      intro a
      simp only [List.foldl_cons]
      rw [ih, collectPatternNames_append]
      simp [c10SpecParamNames]

theorem c10_declsFold :
    ∀ (decls : List Node) (a : List String),
      decls.foldl
          (fun acc2 d =>
            match d with
            | .variableDeclarator did _ => collectPatternNames did acc2
            | _ => acc2)
          a =
        a ++ (decls.map (fun d =>
          match d with
          | .variableDeclarator did _ => patternNames did
          | _ => [])).join := by
  intro decls
  induction decls with
  | nil => intro a; simp
  | cons d rest ih =>
      intro a
      simp only [List.foldl_cons]
      rw [ih]
      cases d <;> simp [collectPatternNames_append]

theorem c10_stmtsFold :
    ∀ (stmts : List Node) (a : List String),
      stmts.foldl
          (fun acc stmt =>
            match stmt with
            | .variableDeclaration _ decls =>
                decls.foldl
                  (fun acc2 d =>
                    match d with
                    | .variableDeclarator did _ => collectPatternNames did acc2
                    | _ => acc2)
                  acc
            | _ => acc)
          a =
        a ++ c10SpecTopLevelDeclNames stmts := by
  intro stmts
  induction stmts with
  | nil => intro a; simp [c10SpecTopLevelDeclNames]
  | cons stmt rest ih =>
      intro a
      simp only [List.foldl_cons]
      rw [ih]
      cases stmt <;> simp [c10SpecTopLevelDeclNames, c10_declsFold]

/-- `function() { if (c) { const y = 0; } return y; }` — `y` declared only
inside a nested block of the body. -/
def c10FnNested (y : String) : Node :=
  .functionExpression none []
    (.blockStatement
      [.ifStatement (.literal none)
        (.blockStatement
          [.variableDeclaration "const"
            [.variableDeclarator (.identifier y) (some (.literal none))]])
        none,
       .returnStatement (some (.identifier y))])

/-- `function() { const y = 0; return y; }` — the same declaration at the top
statement level of the body. -/
def c10FnTop (y : String) : Node :=
  .functionExpression none []
    (.blockStatement
      [.variableDeclaration "const"
        [.variableDeclarator (.identifier y) (some (.literal none))],
       .returnStatement (some (.identifier y))])

/-- C10: the local-name set of the purity classifier holds exactly the
parameter-pattern names and the names declared by variable declarations at
the top statement level of the function body; consequently a name declared
only inside a nested block counts as a free reference (empty local set, not
pure), while the same declaration at the top statement level makes the
function pure. -/
theorem c10_local_names_top_level_only :
    (∀ (i : Option Node) (ps : List Node) (stmts : List Node) (x : String),
        x ∈ collectLocalNames (.functionExpression i ps (.blockStatement stmts)) ↔
          x ∈ c10SpecParamNames ps ∨ x ∈ c10SpecTopLevelDeclNames stmts) ∧
      (∀ y : String, globalNames.contains y = false →
        collectLocalNames (c10FnNested y) = [] ∧
          isPureFunction (c10FnNested y) [] = false ∧
          collectLocalNames (c10FnTop y) = [y] ∧
          isPureFunction (c10FnTop y) [] = true) := by
  constructor
  · intro i ps stmts x
    show x ∈ (collectLocalNames (.functionExpression i ps (.blockStatement stmts))) ↔ _
    rw [show collectLocalNames (.functionExpression i ps (.blockStatement stmts)) =
        stmts.foldl
          (fun acc stmt =>
            match stmt with
            | .variableDeclaration _ decls =>
                decls.foldl
                  (fun acc2 d =>
                    match d with
                    | .variableDeclarator did _ => collectPatternNames did acc2
                    | _ => acc2)
                  acc
            | _ => acc)
          (ps.foldl (fun acc p => collectPatternNames p acc) []) from rfl]
    rw [c10_stmtsFold, c10_paramsFold]
    simp
  · intro y hy
    have hy2 : y ∉ globalNames := by simpa using hy
    refine ⟨rfl, ?_, ?_, ?_⟩
    · simp [isPureFunction, containsJSX, containsHooks, isWrappedInHook,
        accessesEnclosingScope, checkNodeForScopeAccess, runSearch, searchLoop,
        sizeEntries, Node.size, Node.sizeList, Node.sizeOpt, scopeAccessPred,
        isJsxNodeType, isReactHookCall, isFunctionLikeB, bodyOf, paramsOf,
        collectLocalNames, collectPatternNames, collectPatternNamesF,
        c10FnNested, childrenE, optChild, typeOf, hy, hy2]
    · simp [collectLocalNames, collectPatternNames, collectPatternNamesF,
        c10FnTop, bodyOf, paramsOf, Node.size, Node.sizeList, Node.sizeOpt]
    · simp [isPureFunction, containsJSX, containsHooks, isWrappedInHook,
        accessesEnclosingScope, checkNodeForScopeAccess, runSearch, searchLoop,
        sizeEntries, Node.size, Node.sizeList, Node.sizeOpt, scopeAccessPred,
        isJsxNodeType, isReactHookCall, isFunctionLikeB, bodyOf, paramsOf,
        collectLocalNames, collectPatternNames, collectPatternNamesF,
        c10FnTop, childrenE, optChild, typeOf, hy, hy2, List.contains]

/-- C10 witness: the nested-declaration consequence at a concrete name. -/
theorem c10_local_names_top_level_only_witness :
    globalNames.contains "y" = false ∧
      (collectLocalNames (c10FnNested "y") = [] ∧
        isPureFunction (c10FnNested "y") [] = false ∧
        collectLocalNames (c10FnTop "y") = ["y"] ∧
        isPureFunction (c10FnTop "y") [] = true) :=
  ⟨by decide, c10_local_names_top_level_only.2 "y" (by decide)⟩


/-- The diagnostics the rule accumulates while walking a chain of `k` nested
ifs starting from current depth `d`: one per if whose entry depth exceeds the
threshold. -/
def ncChainDiags (maxDepth : Nat) (d : Nat) : Nat → List Diag
  | 0 => []
  | k + 1 =>
      (if d + 1 > maxDepth then [⟨nestedIfs (k + 1), ncMessage maxDepth⟩] else []) ++
        ncChainDiags maxDepth (d + 1) k

theorem isElseIf_nonalternate (n p : Node) (e : Edge) (anc : Anc) (he : e ≠ Edge.alternate) :
    isElseIf n ((p, e) :: anc) = false := by
  simp [isElseIf, he]

/-- Walking a nested-if chain from a state whose current frame has depth `d`
restores the frame and appends exactly `ncChainDiags`. -/
theorem ncWalk_nestedIfs (maxDepth : Nat) :
    ∀ (k : Nat) (anc : Anc), isElseIf (nestedIfs k) anc = false →
      ∀ (d : Nat) (incs : List Nat) (rest : List NCScope) (ds : List Diag),
        (traverseN (nestedIfs k) anc).foldl (fun s ev => ncStep maxDepth ev s)
            ⟨⟨d, incs⟩ :: rest, ds⟩ =
          ⟨⟨d, incs⟩ :: rest, ds ++ ncChainDiags maxDepth d k⟩ := by
  intro k
  induction k with
  | zero =>
      intro anc _ d incs rest ds
      simp only [nestedIfs]
      by_cases hsb : isStandaloneBlock (.blockStatement []) anc = true <;>
        simp [traverseN.eq_def, traverseListN.eq_def, childrenE, ncStep, typeOf,
          ncVisitBlockStatement, ncVisitBlockStatementExit, hsb, ncEnterScope, ncExitScope,
          ncChainDiags]
  | succ k ih =>
      intro anc hfalse d incs rest ds
      have hinner : isElseIf (nestedIfs k)
          ((Node.ifStatement (.literal none) (nestedIfs k) none, Edge.consequent) :: anc) =
          false :=
        isElseIf_nonalternate _ _ _ _ (by simp)
      rw [show nestedIfs (k + 1) =
        .ifStatement (.literal none) (nestedIfs k) none from rfl] at hfalse ⊢
      have hlit : traverseN (Node.literal none)
          ((Node.ifStatement (.literal none) (nestedIfs k) none, Edge.test) :: anc) =
          [⟨false, Node.literal none,
            (Node.ifStatement (.literal none) (nestedIfs k) none, Edge.test) :: anc⟩,
           ⟨true, Node.literal none,
            (Node.ifStatement (.literal none) (nestedIfs k) none, Edge.test) :: anc⟩] := by
        rw [traverseN.eq_def]
        simp [childrenE, traverseListN.eq_def]
      rw [traverseN.eq_def]
      simp only [childrenE, optChild, traverseListN.eq_def, List.append_nil, hlit,
        List.foldl_cons, List.foldl_append, List.foldl_nil]
      have henter : ncStep maxDepth
          ⟨false, .ifStatement (.literal none) (nestedIfs k) none, anc⟩
          ⟨⟨d, incs⟩ :: rest, ds⟩ =
          ⟨⟨d + 1, 1 :: incs⟩ :: rest,
            ds ++ if d + 1 > maxDepth
              then [⟨.ifStatement (.literal none) (nestedIfs k) none, ncMessage maxDepth⟩]
              else []⟩ := by
        by_cases hgt : d + 1 > maxDepth <;>
          simp [ncStep, typeOf, ncVisitIfStatement, ncEnterConditional, ncIncrement, hfalse, hgt]
      have hlitEnter : ∀ s : NCState, ncStep maxDepth
          ⟨false, Node.literal none,
            (Node.ifStatement (.literal none) (nestedIfs k) none, Edge.test) :: anc⟩ s = s :=
        fun s => rfl
      have hlitExit : ∀ s : NCState, ncStep maxDepth
          ⟨true, Node.literal none,
            (Node.ifStatement (.literal none) (nestedIfs k) none, Edge.test) :: anc⟩ s = s :=
        fun s => rfl
      have hexit : ∀ DS : List Diag, ncStep maxDepth
          ⟨true, .ifStatement (.literal none) (nestedIfs k) none, anc⟩
          ⟨⟨d + 1, 1 :: incs⟩ :: rest, DS⟩ = ⟨⟨d, incs⟩ :: rest, DS⟩ := fun DS => by
        simp [ncStep, typeOf, ncVisitConditionalExit, ncExitConditional]
      rw [henter, hlitEnter, hlitExit, ih _ hinner, hexit]
      simp [ncChainDiags, List.append_assoc]
      rfl

theorem ncChainDiags_eq_filterMap (maxDepth : Nat) :
    ∀ (k d : Nat), ncChainDiags maxDepth d k =
      (List.range k).filterMap fun i =>
        if d + i + 1 > maxDepth then some ⟨nestedIfs (k - i), ncMessage maxDepth⟩ else none := by
  intro k
  induction k with
  | zero => intro d; simp [ncChainDiags]
  | succ k ih =>
      intro d
      rw [show ncChainDiags maxDepth d (k + 1) =
        (if d + 1 > maxDepth then [⟨nestedIfs (k + 1), ncMessage maxDepth⟩] else []) ++
          ncChainDiags maxDepth (d + 1) k from rfl, ih (d + 1)]
      rw [List.range_succ_eq_map, List.filterMap_cons, List.filterMap_map]
      have hfun : ∀ i ∈ List.range k,
          ((fun i =>
            if d + i + 1 > maxDepth then some (Diag.mk (nestedIfs (k + 1 - i)) (ncMessage maxDepth))
            else none) ∘ (· + 1)) i =
          (fun i =>
            if d + 1 + i + 1 > maxDepth then some (Diag.mk (nestedIfs (k - i)) (ncMessage maxDepth))
            else none) i := by
        intro i _
        simp only [Function.comp]
        have h1 : d + (i + 1) + 1 = d + 1 + i + 1 := by omega
        have h2 : k + 1 - (i + 1) = k - i := by omega
        rw [h1, h2]
      rw [List.filterMap_congr hfun]
      by_cases hgt : d + 1 > maxDepth <;> simp [hgt]

/-- The diagnostics the claim predicts for a chain of `N` nested ifs: one per
if at nesting level 3 and beyond; the if at level `i + 1` (outside-in) is
`nestedIfs (N - i)`. -/
def c2ExpectedDiags (N : Nat) : List Diag :=
  (List.range N).filterMap fun i =>
    if i + 1 ≥ 3 then some ⟨nestedIfs (N - i), ncMessage DEFAULT_MAX_DEPTH⟩ else none

/-- C2: with the default threshold 2, a chain of `N` if statements nested
directly in the consequent of the previous one yields a diagnostic for
exactly the ifs at nesting level 3 and beyond; `N = 3` gives exactly one
diagnostic, on the innermost if, and `N = 2` gives none. -/
theorem c2_nesting_depth_boundary :
    (∀ N : Nat,
        (ncRun DEFAULT_MAX_DEPTH (.program [nestedIfs N])).diags = c2ExpectedDiags N) ∧
      (ncRun DEFAULT_MAX_DEPTH (.program [nestedIfs 3])).diags =
        [⟨nestedIfs 1, ncMessage DEFAULT_MAX_DEPTH⟩] ∧
      (ncRun DEFAULT_MAX_DEPTH (.program [nestedIfs 2])).diags = [] := by
  refine ⟨?_, rfl, rfl⟩
  intro N
  rw [ncRun, runRule_eq]
  rw [traverseN.eq_def]
  simp only [childrenE, List.map, traverseListN.eq_def, List.append_nil, List.foldl_cons,
    List.foldl_append, List.foldl_nil]
  rw [show ncStep DEFAULT_MAX_DEPTH ⟨false, .program [nestedIfs N], []⟩ ⟨[], []⟩ =
    ⟨[⟨0, []⟩], []⟩ from rfl]
  rw [ncWalk_nestedIfs DEFAULT_MAX_DEPTH N _
    (isElseIf_nonalternate _ _ _ _ (by simp)) 0 [] [] []]
  rw [show ∀ DS : List Diag,
      ncStep DEFAULT_MAX_DEPTH ⟨true, .program [nestedIfs N], []⟩ ⟨[⟨0, []⟩], DS⟩ =
        ⟨[], DS⟩ from fun DS => rfl]
  rw [show (⟨[], [] ++ ncChainDiags DEFAULT_MAX_DEPTH 0 N⟩ : NCState).diags =
    ncChainDiags DEFAULT_MAX_DEPTH 0 N from by simp]
  rw [ncChainDiags_eq_filterMap]
  apply List.filterMap_congr
  intro i _
  exact if_congr (by simp [DEFAULT_MAX_DEPTH]; omega) rfl rfl

/-- `c ? d : e` sitting in the alternate slot of `a ? b : (c ? d : e)`. -/
def c3CxInner : Node :=
  .conditionalExpression (.literal none) (.literal none) (.literal none)

def c3CxOuter : Node := .conditionalExpression (.literal none) (.literal none) c3CxInner

/-- `if (t) t ? x : (t ? y : z);` — an if with a ternary chain through the
alternate slot. -/
def c3CxProg : Node :=
  .program [.ifStatement (.literal none) (.expressionStatement c3CxOuter) none]

/-- The flattened form: the two ternaries as sibling statements inside the
if body. -/
def c3CxProgFlat : Node :=
  .program
    [.ifStatement (.literal none)
      (.blockStatement
        [.expressionStatement (.conditionalExpression (.literal none) (.literal none) (.literal none)),
         .expressionStatement (.conditionalExpression (.literal none) (.literal none) (.literal none))])
      none]

/-- C3 (counterexample to the claim as stated): a ternary conditional that is
the alternate branch of an enclosing ternary gets increment 1, not 0 — the
else-if exemption only tests `IfStatement` nodes — and consequently the
ternary chain nested under one `if` yields one diagnostic while its flattened
form yields none. -/
theorem c3_counterexample_ternary_alternate :
    typeOf c3CxInner = "ConditionalExpression" ∧
      typeOf c3CxOuter = "ConditionalExpression" ∧
      ncIncrement c3CxInner [(c3CxOuter, Edge.alternate)] = 1 ∧
      (ncRun DEFAULT_MAX_DEPTH c3CxProg).diags =
        [⟨c3CxInner, ncMessage DEFAULT_MAX_DEPTH⟩] ∧
      (ncRun DEFAULT_MAX_DEPTH c3CxProgFlat).diags = [] :=
  ⟨rfl, rfl, rfl, rfl, rfl⟩

/-- An else-if chain of `k` if statements: each alternate is the next if; the
last alternate is a plain block. -/
def elseIfChain : Nat → Node
  | 0 => .blockStatement []
  | k + 1 => .ifStatement (.literal none) (.blockStatement []) (some (elseIfChain k))

/-- Walking the alternate-position part of an else-if chain under an enclosing
if, with the current depth not above the threshold, changes nothing: each
else-if gets increment 0. -/
theorem ncWalk_elseIfChain_alt :
    ∀ (k : Nat) (p : Node) (anc : Anc) (d : Nat) (incs : List Nat) (rest : List NCScope)
      (ds : List Diag), typeOf p = "IfStatement" → d ≤ DEFAULT_MAX_DEPTH →
      (traverseN (elseIfChain k) ((p, Edge.alternate) :: anc)).foldl
          (fun s ev => ncStep DEFAULT_MAX_DEPTH ev s) ⟨⟨d, incs⟩ :: rest, ds⟩ =
        ⟨⟨d, incs⟩ :: rest, ds⟩ := by
  intro k
  induction k with
  | zero =>
      intro p anc d incs rest ds hp _
      simp [elseIfChain, traverseN.eq_def, traverseListN.eq_def, childrenE, ncStep,
        ncVisitBlockStatement, ncVisitBlockStatementExit, isStandaloneBlock, hp]
  | succ k ih =>
      intro p anc d incs rest ds hp hd
      rw [show elseIfChain (k + 1) =
        .ifStatement (.literal none) (.blockStatement []) (some (elseIfChain k)) from rfl]
      rw [traverseN.eq_def]
      simp only [childrenE, optChild, traverseListN.eq_def, List.append_nil, List.foldl_cons,
        List.foldl_append, List.foldl_nil]
      have htrue : isElseIf
          (Node.ifStatement (.literal none) (.blockStatement []) (some (elseIfChain k)))
          ((p, Edge.alternate) :: anc) = true := by
        simp [isElseIf, hp]
      have henter : ncStep DEFAULT_MAX_DEPTH
          ⟨false, .ifStatement (.literal none) (.blockStatement []) (some (elseIfChain k)),
            (p, Edge.alternate) :: anc⟩ ⟨⟨d, incs⟩ :: rest, ds⟩ =
          ⟨⟨d, 0 :: incs⟩ :: rest, ds⟩ := by
        simp [ncStep, ncVisitIfStatement, ncEnterConditional, ncIncrement, htrue,
          DEFAULT_MAX_DEPTH]
        exact hd
      rw [henter]
      have hlit : ∀ (b : Bool) (s : NCState) (anc2 : Anc),
          ncStep DEFAULT_MAX_DEPTH ⟨b, Node.literal none, anc2⟩ s = s := by
        intro b s anc2
        cases b <;> rfl
      have hblk : ∀ (b : Bool) (s : NCState) (q : Node) (e : Edge) (anc2 : Anc),
          typeOf q = "IfStatement" →
          ncStep DEFAULT_MAX_DEPTH ⟨b, Node.blockStatement [], (q, e) :: anc2⟩ s = s := by
        intro b s q e anc2 hq
        cases b <;>
          simp [ncStep, ncVisitBlockStatement, ncVisitBlockStatementExit,
            isStandaloneBlock, hq]
      rw [show traverseN (Node.literal none)
          ((Node.ifStatement (.literal none) (.blockStatement []) (some (elseIfChain k)),
            Edge.test) :: (p, Edge.alternate) :: anc) =
          [⟨false, Node.literal none,
            (Node.ifStatement (.literal none) (.blockStatement []) (some (elseIfChain k)),
              Edge.test) :: (p, Edge.alternate) :: anc⟩,
           ⟨true, Node.literal none,
            (Node.ifStatement (.literal none) (.blockStatement []) (some (elseIfChain k)),
              Edge.test) :: (p, Edge.alternate) :: anc⟩] from by
        rw [traverseN.eq_def]; simp [childrenE, traverseListN.eq_def]]
      rw [show traverseN (Node.blockStatement [])
          ((Node.ifStatement (.literal none) (.blockStatement []) (some (elseIfChain k)),
            Edge.consequent) :: (p, Edge.alternate) :: anc) =
          [⟨false, Node.blockStatement [],
            (Node.ifStatement (.literal none) (.blockStatement []) (some (elseIfChain k)),
              Edge.consequent) :: (p, Edge.alternate) :: anc⟩,
           ⟨true, Node.blockStatement [],
            (Node.ifStatement (.literal none) (.blockStatement []) (some (elseIfChain k)),
              Edge.consequent) :: (p, Edge.alternate) :: anc⟩] from by
        rw [traverseN.eq_def]; simp [childrenE, traverseListN.eq_def]]
      simp only [List.foldl_cons, List.foldl_nil]
      rw [hlit, hlit,
        hblk false _ (Node.ifStatement (.literal none) (.blockStatement [])
          (some (elseIfChain k))) Edge.consequent ((p, Edge.alternate) :: anc) rfl,
        hblk true _ (Node.ifStatement (.literal none) (.blockStatement [])
          (some (elseIfChain k))) Edge.consequent ((p, Edge.alternate) :: anc) rfl,
        ih (Node.ifStatement (.literal none) (.blockStatement []) (some (elseIfChain k)))
          ((p, Edge.alternate) :: anc) d (0 :: incs) rest ds rfl hd]
      simp [ncStep, ncVisitConditionalExit, ncExitConditional]

/-- Walking a whole else-if chain from depth 0 (chain head not in alternate
position) yields no diagnostics and restores the state. -/
theorem ncWalk_elseIfChain_top (k : Nat) (anc : Anc)
    (hne : isElseIf (elseIfChain k) anc = false) (incs : List Nat) (rest : List NCScope)
    (ds : List Diag) :
    (traverseN (elseIfChain k) anc).foldl (fun s ev => ncStep DEFAULT_MAX_DEPTH ev s)
        ⟨⟨0, incs⟩ :: rest, ds⟩ =
      ⟨⟨0, incs⟩ :: rest, ds⟩ := by
  cases k with
  | zero =>
      by_cases hsb : isStandaloneBlock (.blockStatement []) anc = true <;>
        simp [elseIfChain, traverseN.eq_def, traverseListN.eq_def, childrenE, ncStep,
          ncVisitBlockStatement, ncVisitBlockStatementExit, hsb, ncEnterScope, ncExitScope]
  | succ k =>
      rw [show elseIfChain (k + 1) =
        .ifStatement (.literal none) (.blockStatement []) (some (elseIfChain k)) from rfl] at hne ⊢
      rw [traverseN.eq_def]
      simp only [childrenE, optChild, traverseListN.eq_def, List.append_nil, List.foldl_cons,
        List.foldl_append, List.foldl_nil]
      have henter : ncStep DEFAULT_MAX_DEPTH
          ⟨false, .ifStatement (.literal none) (.blockStatement []) (some (elseIfChain k)),
            anc⟩ ⟨⟨0, incs⟩ :: rest, ds⟩ =
          ⟨⟨1, 1 :: incs⟩ :: rest, ds⟩ := by
        simp [ncStep, ncVisitIfStatement, ncEnterConditional, ncIncrement, hne,
          DEFAULT_MAX_DEPTH]
      rw [henter]
      have hlit : ∀ (b : Bool) (s : NCState) (anc2 : Anc),
          ncStep DEFAULT_MAX_DEPTH ⟨b, Node.literal none, anc2⟩ s = s := by
        intro b s anc2
        cases b <;> rfl
      have hblk : ∀ (b : Bool) (s : NCState) (q : Node) (e : Edge) (anc2 : Anc),
          typeOf q = "IfStatement" →
          ncStep DEFAULT_MAX_DEPTH ⟨b, Node.blockStatement [], (q, e) :: anc2⟩ s = s := by
        intro b s q e anc2 hq
        cases b <;>
          simp [ncStep, ncVisitBlockStatement, ncVisitBlockStatementExit,
            isStandaloneBlock, hq]
      rw [show traverseN (Node.literal none)
          ((Node.ifStatement (.literal none) (.blockStatement []) (some (elseIfChain k)),
            Edge.test) :: anc) =
          [⟨false, Node.literal none,
            (Node.ifStatement (.literal none) (.blockStatement []) (some (elseIfChain k)),
              Edge.test) :: anc⟩,
           ⟨true, Node.literal none,
            (Node.ifStatement (.literal none) (.blockStatement []) (some (elseIfChain k)),
              Edge.test) :: anc⟩] from by
        rw [traverseN.eq_def]; simp [childrenE, traverseListN.eq_def]]
      rw [show traverseN (Node.blockStatement [])
          ((Node.ifStatement (.literal none) (.blockStatement []) (some (elseIfChain k)),
            Edge.consequent) :: anc) =
          [⟨false, Node.blockStatement [],
            (Node.ifStatement (.literal none) (.blockStatement []) (some (elseIfChain k)),
              Edge.consequent) :: anc⟩,
           ⟨true, Node.blockStatement [],
            (Node.ifStatement (.literal none) (.blockStatement []) (some (elseIfChain k)),
              Edge.consequent) :: anc⟩] from by
        rw [traverseN.eq_def]; simp [childrenE, traverseListN.eq_def]]
      simp only [List.foldl_cons, List.foldl_nil]
      rw [hlit, hlit,
        hblk false _ (Node.ifStatement (.literal none) (.blockStatement [])
          (some (elseIfChain k))) Edge.consequent anc rfl,
        hblk true _ (Node.ifStatement (.literal none) (.blockStatement [])
          (some (elseIfChain k))) Edge.consequent anc rfl,
        ncWalk_elseIfChain_alt k
          (Node.ifStatement (.literal none) (.blockStatement []) (some (elseIfChain k)))
          anc 1 (1 :: incs) rest ds rfl (by simp [DEFAULT_MAX_DEPTH])]
      simp [ncStep, ncVisitConditionalExit, ncExitConditional]

/-- Walking a list of sibling single ifs from depth 0 yields no diagnostics. -/
theorem ncWalk_flatList :
    ∀ (l : List Node), (∀ n ∈ l, n = nestedIfs 1) →
      ∀ (parent : Node) (anc : Anc) (incs : List Nat) (rest : List NCScope) (ds : List Diag),
        (traverseListN (l.map ((Edge.body, ·))) parent anc).foldl
            (fun s ev => ncStep DEFAULT_MAX_DEPTH ev s) ⟨⟨0, incs⟩ :: rest, ds⟩ =
          ⟨⟨0, incs⟩ :: rest, ds⟩ := by
  intro l
  induction l with
  | nil =>
      intro _ parent anc incs rest ds
      rw [show (List.map ((Edge.body, ·)) []) = ([] : List (Edge × Node)) from rfl,
        traverseListN.eq_def]
      rfl
  | cons n rest2 ih =>
      intro hl parent anc incs rest ds
      have hn : n = nestedIfs 1 := hl n (by simp)
      subst hn
      rw [List.map_cons, traverseListN.eq_def]
      simp only [List.foldl_append]
      rw [ncWalk_nestedIfs DEFAULT_MAX_DEPTH 1 ((parent, Edge.body) :: anc)
        (isElseIf_nonalternate _ _ _ _ (by simp)) 0 incs rest ds]
      rw [show ncChainDiags DEFAULT_MAX_DEPTH 0 1 = [] from rfl, List.append_nil]
      exact ih (fun m hm => hl m (by simp [hm])) parent anc incs rest ds

/-- C3 (amended): the nesting-depth increment is 0 exactly for an if
statement that is the `alternate` of an enclosing if statement (a ternary or
switch sitting in an alternate slot still increments by 1 — see the
counterexample), and is 1 otherwise; consequently an else-if chain of if
statements produces the same diagnostic count as the flattened chain of
sibling ifs (both zero at top level, for every chain length). -/
theorem c3_elseif_increment_characterisation :
    (∀ (n : Node) (anc : Anc),
        (ncIncrement n anc = 0 ↔
          typeOf n = "IfStatement" ∧
            ∃ (p : Node) (e : Edge) (anc0 : Anc),
              anc = (p, e) :: anc0 ∧ typeOf p = "IfStatement" ∧ e = Edge.alternate) ∧
        (ncIncrement n anc = 0 ∨ ncIncrement n anc = 1)) ∧
      (∀ N : Nat,
        (ncRun DEFAULT_MAX_DEPTH (.program [elseIfChain N])).diags = [] ∧
        (ncRun DEFAULT_MAX_DEPTH (.program (List.replicate N (nestedIfs 1)))).diags = [] ∧
        (ncRun DEFAULT_MAX_DEPTH (.program [elseIfChain N])).diags.length =
          (ncRun DEFAULT_MAX_DEPTH (.program (List.replicate N (nestedIfs 1)))).diags.length) := by
  constructor
  · intro n anc
    constructor
    · by_cases ht : typeOf n = "IfStatement"
      · cases anc with
        | nil => simp [ncIncrement, isElseIf, ht]
        | cons pe anc0 =>
            obtain ⟨p, e⟩ := pe
            by_cases hp : typeOf p = "IfStatement" <;> by_cases he : e = Edge.alternate <;>
              simp [ncIncrement, isElseIf, ht, hp, he]
      · simp [ncIncrement, isElseIf, ht]
    · by_cases hie : isElseIf n anc = true <;> simp [ncIncrement, hie]
  · intro N
    have h1 : (ncRun DEFAULT_MAX_DEPTH (.program [elseIfChain N])).diags = [] := by
      rw [ncRun, runRule_eq, traverseN.eq_def]
      simp only [childrenE, List.map, traverseListN.eq_def, List.append_nil, List.foldl_cons,
        List.foldl_append, List.foldl_nil]
      rw [show ncStep DEFAULT_MAX_DEPTH ⟨false, .program [elseIfChain N], []⟩ ⟨[], []⟩ =
        ⟨[⟨0, []⟩], []⟩ from rfl]
      rw [ncWalk_elseIfChain_top N [(.program [elseIfChain N], Edge.body)]
        (isElseIf_nonalternate _ _ _ _ (by simp)) [] [] []]
      rfl
    have h2 : (ncRun DEFAULT_MAX_DEPTH (.program (List.replicate N (nestedIfs 1)))).diags =
        [] := by
      rw [ncRun, runRule_eq, traverseN.eq_def]
      simp only [childrenE, List.foldl_cons, List.foldl_append, List.foldl_nil]
      rw [show ncStep DEFAULT_MAX_DEPTH
        ⟨false, .program (List.replicate N (nestedIfs 1)), []⟩ ⟨[], []⟩ =
        ⟨[⟨0, []⟩], []⟩ from rfl]
      rw [ncWalk_flatList (List.replicate N (nestedIfs 1))
        (fun m hm => List.eq_of_mem_replicate hm)
        (.program (List.replicate N (nestedIfs 1))) [] [] [] []]
      rfl
    exact ⟨h1, h2, by rw [h1, h2]⟩
